import Mathlib

/-!
The pretty printer of decoded nanopb records (pb_print.c)

A shallow embedding of `src/pb_print.c` and the properties of its
specification.

Conventions of the embedding.

* Memory is a finite byte image (`Mem`); a pointer is an address, `0` is `NULL`.
* The text written by `printf` is accumulated in a `String`.
* A C function declared to return `bool` yields `Option Bool`: `some b` when a
  `return` statement delivered `b`, `none` when the call has no defined value
  (control reached the closing brace of the function without a `return`, a
  null pointer was dereferenced, or a branch tested such an indeterminate
  value).  Execution is followed up to the first point without a defined value
  and no further.
* `pb.h` and `pb_common.c` are not among the sources.  The type byte is given
  decoded (`LType`, `HType`, `AType`), and the iteration protocol
  (`pb_field_iter_begin_const`, `pb_field_iter_next`) is given by what it
  yields: the ordered fields of the descriptor, each with the way its data and
  size cell are located in a record.
-/

namespace PbPrint

/-! ## Data model -/

/-- Modelled from the spec: the value kind `PB_LTYPE(type)` of a field; the
constants are declared in `pb.h`, which is not among the sources.  `OTHER` is
any value the switch of `print_basic_field` does not name. -/
inductive LType where
  | BOOL | VARINT | UVARINT | SVARINT | FIXED32 | FIXED64 | BYTES | STRING
  | SUBMESSAGE | SUBMSG_W_CB | EXTENSION | FIXED_LENGTH_BYTES | OTHER
  deriving DecidableEq, Repr

/-- Modelled from the spec: the multiplicity kind `PB_HTYPE(type)` of a field
(`pb.h` is not among the sources). -/
inductive HType where
  | REQUIRED | OPTIONAL | REPEATED | ONEOF
  deriving DecidableEq, Repr

/-- Modelled from the spec: the storage kind `PB_ATYPE(type)` of a field
(`pb.h` is not among the sources). -/
inductive AType where
  | STATIC | POINTER | CALLBACK
  deriving DecidableEq, Repr

/-- A finite image of the memory; address `0` is `NULL`. -/
abbrev Mem := List Nat

/-- The byte stored at an address (`0` outside the image). -/
def byte (mem : Mem) (a : Nat) : Nat := mem.getD a 0 % 256

/-- The part of a field definition that does not refer to another descriptor.
`pData` and `pSize` say where the iteration protocol finds the data and the
presence/discriminant/count cell of the field in the record at a given
address. -/
structure pb_field_info_t where
  tag : Nat
  data_size : Nat
  ltype : LType
  htype : HType
  atype : AType
  pData : Mem → Nat → Nat
  pSize : Mem → Nat → Nat

/-- A message descriptor: the field names and, in the same order, the
field definitions, each with its nested descriptor (`none` is `NULL`). -/
inductive pb_msgdesc_t where
  | mk (field_names : List String)
      (fields : List (pb_field_info_t × Option pb_msgdesc_t)) : pb_msgdesc_t

/-- The members of the iteration cursor that `pb_print.c` reads. -/
structure pb_field_iter_t where
  tag : Nat
  data_size : Nat
  ltype : LType
  htype : HType
  atype : AType
  pData : Nat
  pSize : Nat
  submsg_desc : Option pb_msgdesc_t

/-- The cursor the iteration protocol loads for one field of the record at
`src_struct`. -/
def pb_field_iter_load (mem : Mem) (src_struct : Nat)
    (f : pb_field_info_t × Option pb_msgdesc_t) : pb_field_iter_t :=
  { tag := f.1.tag, data_size := f.1.data_size, ltype := f.1.ltype,
    htype := f.1.htype, atype := f.1.atype,
    pData := f.1.pData mem src_struct, pSize := f.1.pSize mem src_struct,
    submsg_desc := f.2 }

/-- What `pb_print.c` takes from its environment: the sizes of `bool` and
`pb_size_t`, the byte order of the target, and the helper
`pb_check_proto3_default_value`, which is defined in another file. -/
structure Ctx where
  sizeof_bool : Nat
  sizeof_pb_size_t : Nat
  big_endian : Bool
  pb_check_proto3_default_value : Mem → pb_field_iter_t → Bool

/-- The text and the value of a call. -/
abbrev Out := String × Option Bool

/-! ## Reading memory and formatting -/

/-- Little-endian value of the `n` bytes at `a`. -/
def loadLE (mem : Mem) : Nat → Nat → Nat
  | _, 0 => 0
  | a, n + 1 => byte mem a + 256 * loadLE mem (a + 1) n

/-- Big-endian value of the `n` bytes at `a`. -/
def loadBE (mem : Mem) (a n : Nat) : Nat :=
  (List.range n).foldl (fun acc i => acc * 256 + byte mem (a + i)) 0

/-- The unsigned integer of `n` bytes stored at `a`. -/
def load (C : Ctx) (mem : Mem) (a n : Nat) : Nat :=
  if C.big_endian then loadBE mem a n else loadLE mem a n

/-- The conversions `%x` and `%lx` of `printf`: lower-case hexadecimal, no
leading zeros (`unsigned long` holds 64 bits). -/
def hex (v : Nat) : String := String.mk (Nat.toDigits 16 v)

/-- The conversion `%s` of `printf`: the bytes from `a` up to the first zero
byte. -/
def cstring (mem : Mem) (a : Nat) : String :=
  String.mk (((mem.drop a).takeWhile (fun b => b % 256 != 0)).map
    (fun b => Char.ofNat (b % 256)))

/-- The loop `for (i = 0; i < n; i++) printf("%x", bytes[i] & 0xf)`, with
`bytes` at address `p`. -/
def print_nibbles (mem : Mem) : Nat → Nat → String
  | _, 0 => ""
  | p, n + 1 => hex (byte mem p &&& 0xf) ++ print_nibbles mem (p + 1) n

/-- The text `printf("    ")` repeated `indent` times. -/
def indentation : Nat → String
  | 0 => ""
  | n + 1 => "    " ++ indentation n

/-! ## The functions of pb_print.c -/

/-- The source function `safe_read_bool`: true when one of the `sizeof(bool)`
bytes at `pSize` is not zero. -/
def safe_read_bool (C : Ctx) (mem : Mem) (pSize : Nat) : Bool :=
  (List.range C.sizeof_bool).any (fun i => byte mem (pSize + i) != 0)

/-- The source function `print_int`. -/
def print_int (C : Ctx) (mem : Mem) (field : pb_field_iter_t) : Out :=
  if field.data_size = 8 ∨ field.data_size = 4 ∨ field.data_size = 2 ∨
      field.data_size = 1 then
    if field.pData = 0 then ("", none)
    else ("0x" ++ hex (load C mem field.pData field.data_size), some true)
  else ("", some false)

/-- The source function `print_submessage`; `traverse` is `pb_print_internal`. -/
def print_submessage (traverse : pb_msgdesc_t → Nat → Nat → Out)
    (field : pb_field_iter_t) (indent : Nat) : Out :=
  match field.submsg_desc with
  | none => ("", some false)
  | some d => traverse d field.pData (indent + 1)

/-- The source function `print_basic_field`; `traverse` is
`pb_print_internal`.  A `pb_bytes_array_t` is its `size`, a `pb_size_t`,
followed by its bytes. -/
def print_basic_field (C : Ctx) (mem : Mem)
    (traverse : pb_msgdesc_t → Nat → Nat → Out)
    (field : pb_field_iter_t) (indent : Nat) : Out :=
  if field.pData = 0 then ("", some true)
  else
    match field.ltype with
    | .BOOL => (if safe_read_bool C mem field.pData then "true" else "false", some true)
    | .VARINT | .UVARINT | .SVARINT => print_int C mem field
    | .FIXED32 => (print_nibbles mem field.pData 4, some true)
    | .FIXED64 => (print_nibbles mem field.pData 8, some true)
    | .BYTES =>
      (print_nibbles mem (field.pData + C.sizeof_pb_size_t)
        (load C mem field.pData C.sizeof_pb_size_t), some true)
    | .STRING => (cstring mem field.pData, some true)
    | .SUBMESSAGE =>
      let r := print_submessage traverse field indent
      ("\n" ++ r.1, r.2)
    | .SUBMSG_W_CB => ("", some false)
    | .FIXED_LENGTH_BYTES => (print_nibbles mem field.pData field.data_size, some true)
    | _ => ("", some false)

/-- The loop of `print_array` with `n` elements left; the cursor it leaves is
returned with the text and the value. -/
def print_array_loop (C : Ctx) (mem : Mem)
    (traverse : pb_msgdesc_t → Nat → Nat → Out) (indent : Nat) :
    Nat → pb_field_iter_t → Out × pb_field_iter_t
  | 0, field => (("]", some true), field)
  | n + 1, field =>
    let r := print_basic_field C mem traverse field indent
    match r.2 with
    | some true =>
      let t := print_array_loop C mem traverse indent n
        { field with pData := field.pData + field.data_size }
      ((r.1 ++ "," ++ t.1.1, t.1.2), t.2)
    | e => ((r.1 ++ ",", e), field)

/-- The source function `print_array`. -/
def print_array (C : Ctx) (mem : Mem)
    (traverse : pb_msgdesc_t → Nat → Nat → Out)
    (field : pb_field_iter_t) (indent : Nat) : Out × pb_field_iter_t :=
  if field.pSize = 0 then (("", none), field)
  else
    let t := print_array_loop C mem traverse indent
      (load C mem field.pSize C.sizeof_pb_size_t) field
    (("[" ++ t.1.1, t.1.2), t.2)

/-- The source function `field_is_empty`.  The function has no `return` after
its last `if`: for a field that passes the presence tests and has data it
yields no value. -/
def field_is_empty (C : Ctx) (mem : Mem) (field : pb_field_iter_t) : Option Bool :=
  let tail : Option Bool :=
    if field.pData = 0 then
      (if field.htype = .REQUIRED then some false else some true)
    else none
  if field.htype = .ONEOF then
    if field.pSize = 0 then none
    else if load C mem field.pSize C.sizeof_pb_size_t ≠ field.tag then some true
    else tail
  else if field.htype = .OPTIONAL then
    if field.pSize ≠ 0 then
      (if safe_read_bool C mem field.pSize = false then some true else tail)
    else if field.atype = .STATIC then
      (if C.pb_check_proto3_default_value mem field then some true else tail)
    else tail
  else tail

/-- The source function `print_field`. -/
def print_field (C : Ctx) (mem : Mem)
    (traverse : pb_msgdesc_t → Nat → Nat → Out)
    (field : pb_field_iter_t) (indent : Nat) : Out × pb_field_iter_t :=
  if field.atype = .CALLBACK then (("", some false), field)
  else if field.htype = .REPEATED then print_array C mem traverse field indent
  else (print_basic_field C mem traverse field indent, field)

/-- How one pass through the body of the loop of `pb_print_internal` ends. -/
inductive Flow where
  | next
  | ret (r : Option Bool)
  deriving DecidableEq, Repr

/-- The block of `pb_print_internal` under the comment `Regular field`: the
indentation, the name `field_names[i]`, the field itself and a newline. -/
def print_regular_field (C : Ctx) (mem : Mem)
    (traverse : pb_msgdesc_t → Nat → Nat → Out) (field_names : List String)
    (i : Nat) (iter : pb_field_iter_t) (indent : Nat) : String × Flow :=
  match field_names.get? i with
  | none => (indentation indent, .ret none)
  | some name =>
    let head := indentation indent ++ "- " ++ name ++ ": "
    let r := (print_field C mem traverse iter indent).1
    match r.2 with
    | some true => (head ++ r.1 ++ "\n", .next)
    | some false => (head ++ r.1, .ret (some false))
    | none => (head ++ r.1, .ret none)

/-- The body of the loop of `pb_print_internal` for the field under the
cursor, `i` being the name counter. -/
def pb_print_iteration (C : Ctx) (mem : Mem)
    (traverse : pb_msgdesc_t → Nat → Nat → Out) (field_names : List String)
    (i : Nat) (iter : pb_field_iter_t) (indent : Nat) : String × Flow :=
  if iter.ltype = .EXTENSION then ("", .ret (some false))
  else
    match field_is_empty C mem iter with
    | none => ("", .ret none)
    | some true => ("", .next)
    | some false => print_regular_field C mem traverse field_names i iter indent

mutual

/-- The source function `pb_print_internal`.  After the loop it prints a
newline and reaches its closing brace without a `return`. -/
def pb_print_internal (C : Ctx) (mem : Mem) : pb_msgdesc_t → Nat → Nat → Out
  | .mk _ [], _, _ => ("", some true)
  | .mk field_names (f :: fs), src_struct, indent =>
    match pb_print_fields C mem field_names src_struct indent (f :: fs) 0 with
    | (o, .next) => (o ++ "\n", none)
    | (o, .ret r) => (o, r)

/-- The loop of `pb_print_internal` over the fields still to visit, `i` being
the name counter; `Flow.next` says that the last field was passed. -/
def pb_print_fields (C : Ctx) (mem : Mem) (field_names : List String)
    (src_struct indent : Nat) :
    List (pb_field_info_t × Option pb_msgdesc_t) → Nat → String × Flow
  | [], _ => ("", .next)
  | (info, sub) :: rest, i =>
    let traverse : pb_msgdesc_t → Nat → Nat → Out :=
      match sub with
      | none => fun _ _ _ => ("", none)
      | some d => fun _ p n => pb_print_internal C mem d p n
    match pb_print_iteration C mem traverse field_names i
        (pb_field_iter_load mem src_struct (info, sub)) indent with
    | (o, .next) =>
      let t := pb_print_fields C mem field_names src_struct indent rest (i + 1)
      (o ++ t.1, t.2)
    | (o, .ret r) => (o, .ret r)

end

/-- The source function `pb_pretty_print`. -/
def pb_pretty_print (C : Ctx) (mem : Mem) (fields : pb_msgdesc_t)
    (src_struct : Nat) : Out :=
  pb_print_internal C mem fields src_struct 0

/-! ## A target and sample records -/

/-- Modelled from the spec: `pb_check_proto3_default_value`, which is defined
outside the sources.  A numeric value is at its default when all its bytes are
zero, a byte sequence when its length is zero, a string when it is empty. -/
def pb_check_proto3_default_value (sizeof_pb_size_t : Nat) (mem : Mem)
    (field : pb_field_iter_t) : Bool :=
  match field.ltype with
  | .BOOL | .VARINT | .UVARINT | .SVARINT | .FIXED32 | .FIXED64 =>
    (List.range field.data_size).all (fun i => byte mem (field.pData + i) == 0)
  | .BYTES => (List.range sizeof_pb_size_t).all (fun i => byte mem (field.pData + i) == 0)
  | .STRING => byte mem field.pData == 0
  | _ => false

/-- A little-endian target with a one-byte `bool` and a two-byte `pb_size_t`. -/
def lp64 : Ctx :=
  { sizeof_bool := 1, sizeof_pb_size_t := 2, big_endian := false,
    pb_check_proto3_default_value := pb_check_proto3_default_value 2 }

/-- A traversal that is never called: for cursors without a nested descriptor. -/
def no_traverse : pb_msgdesc_t → Nat → Nat → Out := fun _ _ _ => ("", none)

/-- Field `id`: required integer of four bytes at offset 0 of the record. -/
def id_field : pb_field_info_t :=
  { tag := 1, data_size := 4, ltype := .VARINT, htype := .REQUIRED, atype := .STATIC,
    pData := fun _ s => s, pSize := fun _ _ => 0 }

/-- Field `name`: optional string at offset 5, its presence cell at offset 4. -/
def name_field : pb_field_info_t :=
  { tag := 2, data_size := 2, ltype := .STRING, htype := .OPTIONAL, atype := .STATIC,
    pData := fun _ s => s + 5, pSize := fun _ s => s + 4 }

/-- The descriptor of the record with the fields `id` and `name`. -/
def person_desc : pb_msgdesc_t := .mk ["id", "name"] [(id_field, none), (name_field, none)]

/-- A record of `person_desc` at address 8: `id = 42`, `name = "x"`, present. -/
def person_mem : Mem := [0, 0, 0, 0, 0, 0, 0, 0, 42, 0, 0, 0, 1, 120, 0]

/-- The descriptor of a record with the single field `id`. -/
def id_desc : pb_msgdesc_t := .mk ["id"] [(id_field, none)]

/-- Field `data`: required, pointer storage; the pointer is the 8-byte word at
offset 0 of the record. -/
def data_field : pb_field_info_t :=
  { tag := 1, data_size := 4, ltype := .VARINT, htype := .REQUIRED, atype := .POINTER,
    pData := fun mem s => loadLE mem s 8, pSize := fun _ _ => 0 }

/-- The descriptor of a record with the single field `data`. -/
def data_desc : pb_msgdesc_t := .mk ["data"] [(data_field, none)]

/-- A record of `data_desc` at address 8 whose pointer is null. -/
def null_mem : Mem := [0, 0, 0, 0, 0, 0, 0, 0, 0, 0, 0, 0, 0, 0, 0, 0]

/-- Field `note`: optional integer at offset 12, its presence cell at offset 8. -/
def note_field : pb_field_info_t :=
  { tag := 2, data_size := 4, ltype := .VARINT, htype := .OPTIONAL, atype := .STATIC,
    pData := fun _ s => s + 12, pSize := fun _ s => s + 8 }

/-- Field `ext`: an extension slot. -/
def ext_field : pb_field_info_t :=
  { tag := 3, data_size := 8, ltype := .EXTENSION, htype := .OPTIONAL, atype := .STATIC,
    pData := fun _ s => s + 16, pSize := fun _ _ => 0 }

/-- Field `cb`: required, callback storage, without data. -/
def cb_field : pb_field_info_t :=
  { tag := 4, data_size := 8, ltype := .STRING, htype := .REQUIRED, atype := .CALLBACK,
    pData := fun _ _ => 0, pSize := fun _ _ => 0 }

/-- A record at address 8: null pointer for `data`, `note` absent, then 8
bytes. -/
def ext_mem : Mem :=
  [0, 0, 0, 0, 0, 0, 0, 0, 0, 0, 0, 0, 0, 0, 0, 0, 0, 0, 0, 0, 7, 0, 0, 0, 9, 9, 9, 9, 9, 9, 9, 9]

/-- Field `sub`: required nested record, stored in line at offset 0. -/
def sub_field : pb_field_info_t :=
  { tag := 5, data_size := 24, ltype := .SUBMESSAGE, htype := .REQUIRED, atype := .STATIC,
    pData := fun _ s => s, pSize := fun _ _ => 0 }

/-- The texts of a list, one after the other. -/
def concat_texts (l : List String) : String := l.foldr (fun s t => s ++ t) ""

/-- The cursor of a repeated field moved to its element `j`. -/
def cursor_at (field : pb_field_iter_t) (j : Nat) : pb_field_iter_t :=
  { field with pData := field.pData + j * field.data_size }

/-- Field `values`: repeated integers of four bytes at offset 4, their count at
offset 0. -/
def values_field : pb_field_info_t :=
  { tag := 1, data_size := 4, ltype := .VARINT, htype := .REPEATED, atype := .STATIC,
    pData := fun _ s => s + 4, pSize := fun _ s => s }

/-- A record at address 8 with the three values 1, 2, 3. -/
def values_mem : Mem :=
  [0, 0, 0, 0, 0, 0, 0, 0, 3, 0, 0, 0, 1, 0, 0, 0, 2, 0, 0, 0, 3, 0, 0, 0]

/-- Union member `a`: tag 1, integer of four bytes at offset 4; the
discriminant of the union is at offset 0. -/
def member_a : pb_field_info_t :=
  { tag := 1, data_size := 4, ltype := .VARINT, htype := .ONEOF, atype := .STATIC,
    pData := fun _ s => s + 4, pSize := fun _ s => s }

/-- Union member `b`: tag 2, sharing the storage of `a`. -/
def member_b : pb_field_info_t :=
  { tag := 2, data_size := 4, ltype := .VARINT, htype := .ONEOF, atype := .STATIC,
    pData := fun _ s => s + 4, pSize := fun _ s => s }

/-- Union member `p`: tag 2, pointer storage; the pointer is the 8-byte word
at offset 8. -/
def member_p : pb_field_info_t :=
  { tag := 2, data_size := 4, ltype := .VARINT, htype := .ONEOF, atype := .POINTER,
    pData := fun mem s => loadLE mem (s + 8) 8, pSize := fun _ s => s }

/-- The descriptor of a record that holds the union of `a` and `b`. -/
def union_desc : pb_msgdesc_t := .mk ["a", "b"] [(member_a, none), (member_b, none)]

/-- A record of `union_desc` at address 8 whose discriminant is 0: no member
is set. -/
def union_unset_mem : Mem := [0, 0, 0, 0, 0, 0, 0, 0, 0, 0, 0, 0, 5, 0, 0, 0]

/-- A record at address 8 whose discriminant is 2 and whose pointer is null. -/
def union_null_mem : Mem := [0, 0, 0, 0, 0, 0, 0, 0, 2, 0, 0, 0, 0, 0, 0, 0, 0, 0, 0, 0, 0, 0, 0, 0]

/-- A record at address 8 whose discriminant is 1, with the value 5. -/
def union_a_mem : Mem := [0, 0, 0, 0, 0, 0, 0, 0, 1, 0, 0, 0, 5, 0, 0, 0]

/-- Field `opt`: optional, pointer storage, with a presence cell at offset 0;
the pointer is the 8-byte word at offset 8. -/
def opt_field : pb_field_info_t :=
  { tag := 1, data_size := 4, ltype := .VARINT, htype := .OPTIONAL, atype := .POINTER,
    pData := fun mem s => loadLE mem (s + 8) 8, pSize := fun _ s => s }

/-- A record at address 8 whose presence cell is 1 and whose pointer is null. -/
def opt_null_mem : Mem := [0, 0, 0, 0, 0, 0, 0, 0, 1, 0, 0, 0, 0, 0, 0, 0, 0, 0, 0, 0, 0, 0, 0, 0]



/-- A cursor on an integer of `w` bytes stored at address 8. -/
def int_cursor (w : Nat) : pb_field_iter_t :=
  { tag := 1, data_size := w, ltype := .SVARINT, htype := .REQUIRED, atype := .STATIC,
    pData := 8, pSize := 0, submsg_desc := none }

/-- The value -2 as a signed integer of up to eight bytes at address 8, in
two's complement, little-endian. -/
def neg_mem : Mem := [0, 0, 0, 0, 0, 0, 0, 0, 254, 255, 255, 255, 255, 255, 255, 255]









/-- Field `odd`: repeated integers with the unsupported width of three bytes,
at offset 4, their count at offset 0. -/
def odd_field : pb_field_info_t :=
  { tag := 1, data_size := 3, ltype := .VARINT, htype := .REPEATED, atype := .STATIC,
    pData := fun _ s => s + 4, pSize := fun _ s => s }

/-- The bytes 01 02 .. 08 at address 8. -/
def fixed_mem : Mem := [0, 0, 0, 0, 0, 0, 0, 0, 1, 2, 3, 4, 5, 6, 7, 8]

/-- A byte array at address 8: the length 3, a `pb_size_t` of two bytes, then
the bytes 1a 2b ff. -/
def bytes_mem : Mem := [0, 0, 0, 0, 0, 0, 0, 0, 3, 0, 26, 43, 255]

/-- A byte array at address 8 with the same length and the bytes 0a 0b 0f,
which have the low nibbles of those of `bytes_mem`. -/
def bytes_mem_low : Mem := [0, 0, 0, 0, 0, 0, 0, 0, 3, 0, 10, 11, 15]







/-! ## The recursion, unfolded

The functions below `pb_print_internal` receive the traversal as an argument.
These lemmas show that the argument may always be taken to be
`pb_print_internal` itself, as in the source. -/

theorem print_submessage_congr (t1 t2 : pb_msgdesc_t → Nat → Nat → Out)
    (field : pb_field_iter_t) (indent : Nat)
    (h : ∀ d, field.submsg_desc = some d → t1 d = t2 d) :
    print_submessage t1 field indent = print_submessage t2 field indent := by
  unfold print_submessage
  cases hd : field.submsg_desc with
  | none => rfl
  | some d => simp [h d hd]

theorem print_basic_field_congr (C : Ctx) (mem : Mem)
    (t1 t2 : pb_msgdesc_t → Nat → Nat → Out)
    (field : pb_field_iter_t) (indent : Nat)
    (h : ∀ d, field.submsg_desc = some d → t1 d = t2 d) :
    print_basic_field C mem t1 field indent = print_basic_field C mem t2 field indent := by
  unfold print_basic_field
  rw [print_submessage_congr t1 t2 field indent h]

theorem print_array_loop_congr (C : Ctx) (mem : Mem)
    (t1 t2 : pb_msgdesc_t → Nat → Nat → Out) (indent : Nat) (n : Nat) :
    ∀ field : pb_field_iter_t, (∀ d, field.submsg_desc = some d → t1 d = t2 d) →
      print_array_loop C mem t1 indent n field = print_array_loop C mem t2 indent n field := by
  induction n with
  | zero => intro field _; rfl
  | succ n ih =>
    intro field h
    simp only [print_array_loop]
    rw [print_basic_field_congr C mem t1 t2 field indent h]
    rw [ih { field with pData := field.pData + field.data_size } h]

theorem print_field_congr (C : Ctx) (mem : Mem)
    (t1 t2 : pb_msgdesc_t → Nat → Nat → Out)
    (field : pb_field_iter_t) (indent : Nat)
    (h : ∀ d, field.submsg_desc = some d → t1 d = t2 d) :
    print_field C mem t1 field indent = print_field C mem t2 field indent := by
  unfold print_field print_array
  rw [print_basic_field_congr C mem t1 t2 field indent h,
    print_array_loop_congr C mem t1 t2 indent _ field h]

theorem pb_print_iteration_congr (C : Ctx) (mem : Mem)
    (t1 t2 : pb_msgdesc_t → Nat → Nat → Out) (field_names : List String)
    (i : Nat) (iter : pb_field_iter_t) (indent : Nat)
    (h : ∀ d, iter.submsg_desc = some d → t1 d = t2 d) :
    pb_print_iteration C mem t1 field_names i iter indent
      = pb_print_iteration C mem t2 field_names i iter indent := by
  unfold pb_print_iteration print_regular_field
  rw [print_field_congr C mem t1 t2 iter indent h]

/-- The loop of `pb_print_internal` at a field, written as in the source: the
nested traversal is `pb_print_internal`. -/
theorem pb_print_fields_cons (C : Ctx) (mem : Mem) (field_names : List String)
    (src_struct indent : Nat) (f : pb_field_info_t × Option pb_msgdesc_t)
    (rest : List (pb_field_info_t × Option pb_msgdesc_t)) (i : Nat) :
    pb_print_fields C mem field_names src_struct indent (f :: rest) i =
      match pb_print_iteration C mem (pb_print_internal C mem) field_names i
          (pb_field_iter_load mem src_struct f) indent with
      | (o, .next) =>
        (o ++ (pb_print_fields C mem field_names src_struct indent rest (i + 1)).1,
          (pb_print_fields C mem field_names src_struct indent rest (i + 1)).2)
      | (o, .ret r) => (o, .ret r) := by
  obtain ⟨info, sub⟩ := f
  conv_lhs => unfold pb_print_fields
  have h : pb_print_iteration C mem
      (match sub with
        | none => fun _ _ _ => ("", none)
        | some d => fun _ p n => pb_print_internal C mem d p n) field_names i
      (pb_field_iter_load mem src_struct (info, sub)) indent
      = pb_print_iteration C mem (pb_print_internal C mem) field_names i
        (pb_field_iter_load mem src_struct (info, sub)) indent := by
    apply pb_print_iteration_congr
    intro d hd
    simp only [pb_field_iter_load] at hd
    subst hd
    rfl
  simp only [h]

theorem pb_print_fields_nil (C : Ctx) (mem : Mem) (field_names : List String)
    (src_struct indent i : Nat) :
    pb_print_fields C mem field_names src_struct indent [] i = ("", .next) := by
  unfold pb_print_fields
  rfl

/-- The loop over `pre ++ post` when the loop over `pre` passes all its
fields. -/
theorem pb_print_fields_append_next (C : Ctx) (mem : Mem) (field_names : List String)
    (src_struct indent : Nat) (post : List (pb_field_info_t × Option pb_msgdesc_t)) :
    ∀ (pre : List (pb_field_info_t × Option pb_msgdesc_t)) (i : Nat) (o : String),
      pb_print_fields C mem field_names src_struct indent pre i = (o, .next) →
      pb_print_fields C mem field_names src_struct indent (pre ++ post) i =
        (o ++ (pb_print_fields C mem field_names src_struct indent post (i + pre.length)).1,
          (pb_print_fields C mem field_names src_struct indent post (i + pre.length)).2) := by
  intro pre
  induction pre with
  | nil =>
    intro i o h
    rw [pb_print_fields_nil] at h
    simp only [Prod.mk.injEq, and_true] at h
    subst h
    simp
  | cons f pre ih =>
    intro i o h
    rw [pb_print_fields_cons] at h
    rw [List.cons_append, pb_print_fields_cons]
    rcases hit : pb_print_iteration C mem (pb_print_internal C mem) field_names i
        (pb_field_iter_load mem src_struct f) indent with ⟨t, fl⟩
    rw [hit] at h
    cases fl with
    | ret r => simp at h
    | next =>
      simp only [Prod.mk.injEq] at h
      obtain ⟨h1, h2⟩ := h
      have hp : pb_print_fields C mem field_names src_struct indent pre (i + 1)
          = ((pb_print_fields C mem field_names src_struct indent pre (i + 1)).1, .next) := by
        rw [← h2]
      have := ih (i + 1) _ hp
      simp only [this, List.length_cons]
      rw [← h1, String.append_assoc]
      have e : i + 1 + pre.length = i + (pre.length + 1) := by omega
      rw [e]

/-- The loop over `pre ++ post` when the loop over `pre` ends in a `return`. -/
theorem pb_print_fields_append_ret (C : Ctx) (mem : Mem) (field_names : List String)
    (src_struct indent : Nat) (post : List (pb_field_info_t × Option pb_msgdesc_t)) :
    ∀ (pre : List (pb_field_info_t × Option pb_msgdesc_t)) (i : Nat) (o : String)
      (r : Option Bool),
      pb_print_fields C mem field_names src_struct indent pre i = (o, .ret r) →
      pb_print_fields C mem field_names src_struct indent (pre ++ post) i = (o, .ret r) := by
  intro pre
  induction pre with
  | nil =>
    intro i o r h
    rw [pb_print_fields_nil] at h
    simp at h
  | cons f pre ih =>
    intro i o r h
    rw [pb_print_fields_cons] at h
    rw [List.cons_append, pb_print_fields_cons]
    rcases hit : pb_print_iteration C mem (pb_print_internal C mem) field_names i
        (pb_field_iter_load mem src_struct f) indent with ⟨t, fl⟩
    rw [hit] at h
    cases fl with
    | ret r2 => simpa using h
    | next =>
      simp only [Prod.mk.injEq] at h
      obtain ⟨h1, h2⟩ := h
      have hp : pb_print_fields C mem field_names src_struct indent pre (i + 1)
          = ((pb_print_fields C mem field_names src_struct indent pre (i + 1)).1, .ret r) := by
        rw [← h2]
      have := ih (i + 1) _ r hp
      simp only [this]
      rw [h1]

/-- The source function `pb_print_internal` on a descriptor with at least one
field. -/
theorem pb_print_internal_cons (C : Ctx) (mem : Mem) (field_names : List String)
    (f : pb_field_info_t × Option pb_msgdesc_t)
    (fs : List (pb_field_info_t × Option pb_msgdesc_t)) (src_struct indent : Nat) :
    pb_print_internal C mem (.mk field_names (f :: fs)) src_struct indent =
      match pb_print_fields C mem field_names src_struct indent (f :: fs) 0 with
      | (o, .next) => (o ++ "\n", none)
      | (o, .ret r) => (o, r) := by
  conv_lhs => unfold pb_print_internal

/-- When the pass through the loop body for a field ends in a `return`, the
traversal ends there: it yields the value returned and the text written so
far, whatever fields follow. -/
theorem pb_print_internal_stop (C : Ctx) (mem : Mem) (field_names : List String)
    (pre post : List (pb_field_info_t × Option pb_msgdesc_t))
    (f : pb_field_info_t × Option pb_msgdesc_t) (src_struct indent : Nat)
    (o t : String) (r : Option Bool)
    (hpre : pb_print_fields C mem field_names src_struct indent pre 0 = (o, .next))
    (hit : pb_print_iteration C mem (pb_print_internal C mem) field_names pre.length
      (pb_field_iter_load mem src_struct f) indent = (t, .ret r)) :
    pb_print_internal C mem (.mk field_names (pre ++ f :: post)) src_struct indent
      = (o ++ t, r) := by
  have h1 := pb_print_fields_append_next C mem field_names src_struct indent (f :: post)
    pre 0 o hpre
  rw [Nat.zero_add, pb_print_fields_cons, hit] at h1
  simp only at h1
  cases pre with
  | nil =>
    rw [List.nil_append] at h1 ⊢
    rw [pb_print_internal_cons, h1]
  | cons g pre =>
    rw [List.cons_append] at h1 ⊢
    rw [pb_print_internal_cons, h1]

/-! ## The value of a traversal -/

theorem print_regular_field_ret_ne_true (C : Ctx) (mem : Mem)
    (traverse : pb_msgdesc_t → Nat → Nat → Out) (field_names : List String)
    (i : Nat) (iter : pb_field_iter_t) (indent : Nat) (t : String) (r : Option Bool)
    (h : print_regular_field C mem traverse field_names i iter indent = (t, .ret r)) :
    r ≠ some true := by
  unfold print_regular_field at h
  cases hn : field_names.get? i with
  | none =>
    simp only [hn, Prod.mk.injEq, Flow.ret.injEq] at h
    rw [← h.2]; simp
  | some name =>
    simp only [hn] at h
    rcases hr : (print_field C mem traverse iter indent).1.2 with _ | b
    · simp only [hr, Prod.mk.injEq, Flow.ret.injEq] at h
      rw [← h.2]; simp
    · cases b with
      | true => simp [hr] at h
      | false =>
        simp only [hr, Prod.mk.injEq, Flow.ret.injEq] at h
        rw [← h.2]; simp

theorem pb_print_iteration_ret_ne_true (C : Ctx) (mem : Mem)
    (traverse : pb_msgdesc_t → Nat → Nat → Out) (field_names : List String)
    (i : Nat) (iter : pb_field_iter_t) (indent : Nat) (t : String) (r : Option Bool)
    (h : pb_print_iteration C mem traverse field_names i iter indent = (t, .ret r)) :
    r ≠ some true := by
  unfold pb_print_iteration at h
  by_cases he : iter.ltype = .EXTENSION
  · simp only [he, if_true, Prod.mk.injEq, Flow.ret.injEq] at h
    rw [← h.2]; simp
  · simp only [he, if_false] at h
    rcases hf : field_is_empty C mem iter with _ | b
    · simp only [hf, Prod.mk.injEq, Flow.ret.injEq] at h
      rw [← h.2]; simp
    · cases b with
      | true => simp [hf] at h
      | false =>
        simp only [hf] at h
        exact print_regular_field_ret_ne_true _ _ _ _ _ _ _ _ _ h

theorem pb_print_fields_ret_ne_true (C : Ctx) (mem : Mem) (field_names : List String)
    (src_struct indent : Nat) :
    ∀ (fs : List (pb_field_info_t × Option pb_msgdesc_t)) (i : Nat) (t : String)
      (r : Option Bool),
      pb_print_fields C mem field_names src_struct indent fs i = (t, .ret r) →
      r ≠ some true := by
  intro fs
  induction fs with
  | nil =>
    intro i t r h
    rw [pb_print_fields_nil] at h
    simp at h
  | cons f fs ih =>
    intro i t r h
    rw [pb_print_fields_cons] at h
    rcases hit : pb_print_iteration C mem (pb_print_internal C mem) field_names i
        (pb_field_iter_load mem src_struct f) indent with ⟨u, fl⟩
    rw [hit] at h
    cases fl with
    | ret r2 =>
      simp only [Prod.mk.injEq, Flow.ret.injEq] at h
      rw [← h.2]
      exact pb_print_iteration_ret_ne_true _ _ _ _ _ _ _ _ _ hit
    | next =>
      simp only [Prod.mk.injEq] at h
      exact ih (i + 1) (pb_print_fields C mem field_names src_struct indent fs (i + 1)).1 r
        (by rw [← h.2])

/-! ## C1 -/

/-- C1 (the code departs from the claim): on a descriptor with at least one
field no path of `pb_print_internal` returns true, so `pb_pretty_print` never
returns true on such a record; on the record whose single field is the
required integer `id = 42`, `field_is_empty` reaches its closing brace without
a value and the traversal stops with no text and no value. -/
theorem C1_no_return_true :
    (∀ (C : Ctx) (mem : Mem) (field_names : List String)
      (f : pb_field_info_t × Option pb_msgdesc_t)
      (fs : List (pb_field_info_t × Option pb_msgdesc_t)) (src_struct : Nat),
      (pb_pretty_print C mem (.mk field_names (f :: fs)) src_struct).2 ≠ some true)
    ∧ field_is_empty lp64 person_mem (pb_field_iter_load person_mem 8 (id_field, none)) = none
    ∧ pb_pretty_print lp64 person_mem id_desc 8 = ("", none) := by
  refine ⟨?_, by decide, by decide⟩
  intro C mem field_names f fs src_struct
  unfold pb_pretty_print
  rw [pb_print_internal_cons]
  rcases hfs : pb_print_fields C mem field_names src_struct 0 (f :: fs) 0 with ⟨t, fl⟩
  cases fl with
  | next => simp
  | ret r => exact pb_print_fields_ret_ne_true _ _ _ _ _ _ _ _ _ hfs

/-! ## C2 -/

/-- C2 (counterexample): for the record whose required pointer field `data`
has a null data pointer, `field_is_empty` returns false, the loop body prints
the name with an empty value and goes on, and `pb_pretty_print` does not
return false. -/
theorem C2_required_null_counterexample :
    field_is_empty lp64 null_mem (pb_field_iter_load null_mem 8 (data_field, none)) = some false
    ∧ pb_print_iteration lp64 null_mem (pb_print_internal lp64 null_mem) ["data"] 0
        (pb_field_iter_load null_mem 8 (data_field, none)) 0 = ("- data: \n", .next)
    ∧ pb_pretty_print lp64 null_mem data_desc 8 = ("- data: \n\n", none)
    ∧ ¬ (pb_pretty_print lp64 null_mem data_desc 8).2 = some false := by
  decide

/-- C2 (amended): for a required field with pointer storage whose data pointer
is null, presence evaluation is not an error: `field_is_empty` returns false
(the field counts as present), `print_field` writes nothing and returns true,
and the loop body prints the indentation, the name and a newline (an empty
value) and goes on to the next field. -/
theorem C2_required_null_pointer (C : Ctx) (mem : Mem)
    (traverse : pb_msgdesc_t → Nat → Nat → Out) (field_names : List String)
    (i : Nat) (iter : pb_field_iter_t) (indent : Nat) (name : String)
    (hreq : iter.htype = .REQUIRED) (hptr : iter.atype = .POINTER)
    (hnull : iter.pData = 0) (hext : iter.ltype ≠ .EXTENSION)
    (hname : field_names.get? i = some name) :
    field_is_empty C mem iter = some false
    ∧ (print_field C mem traverse iter indent).1 = ("", some true)
    ∧ pb_print_iteration C mem traverse field_names i iter indent
        = (indentation indent ++ "- " ++ name ++ ": " ++ "" ++ "\n", .next) := by
  have h1 : field_is_empty C mem iter = some false := by
    simp [field_is_empty, hreq, hnull]
  have h2 : (print_field C mem traverse iter indent).1 = ("", some true) := by
    simp [print_field, print_basic_field, hreq, hptr, hnull]
  refine ⟨h1, h2, ?_⟩
  unfold pb_print_iteration print_regular_field
  simp only [hext, if_false, h1, hname, h2]

/-- C2 (witness): the amended statement at the record with the null pointer
field `data`. -/
theorem C2_required_null_pointer_witness :
    field_is_empty lp64 null_mem (pb_field_iter_load null_mem 8 (data_field, none)) = some false
    ∧ (print_field lp64 null_mem no_traverse
        (pb_field_iter_load null_mem 8 (data_field, none)) 0).1 = ("", some true)
    ∧ pb_print_iteration lp64 null_mem no_traverse ["data"] 0
        (pb_field_iter_load null_mem 8 (data_field, none)) 0
        = (indentation 0 ++ "- " ++ "data" ++ ": " ++ "" ++ "\n", .next) :=
  C2_required_null_pointer lp64 null_mem no_traverse ["data"] 0
    (pb_field_iter_load null_mem 8 (data_field, none)) 0 "data" rfl rfl (by decide)
    (by decide) rfl

/-! ## C3 -/

/-- C3: when the loop over the fields before index `i` passes all of them and
the field at index `i` has the extension-slot kind, `pb_print_internal`
returns false and its text is the text of the fields before `i`, whatever the
presence of field `i` and whatever fields follow. -/
theorem C3_extension_stops (C : Ctx) (mem : Mem) (field_names : List String)
    (pre post : List (pb_field_info_t × Option pb_msgdesc_t))
    (f : pb_field_info_t × Option pb_msgdesc_t) (src_struct indent : Nat) (o : String)
    (hext : f.1.ltype = .EXTENSION)
    (hpre : pb_print_fields C mem field_names src_struct indent pre 0 = (o, .next)) :
    pb_print_internal C mem (.mk field_names (pre ++ f :: post)) src_struct indent
      = (o, some false) := by
  have hit : pb_print_iteration C mem (pb_print_internal C mem) field_names pre.length
      (pb_field_iter_load mem src_struct f) indent = ("", .ret (some false)) := by
    unfold pb_print_iteration
    have : (pb_field_iter_load mem src_struct f).ltype = .EXTENSION := hext
    simp [this]
  have h := pb_print_internal_stop C mem field_names pre post f src_struct indent o ""
    (some false) hpre hit
  rw [h, String.append_empty]

/-- C3 (witness): an extension slot after the fields `data` and `note`, before
the field `id`. -/
theorem C3_extension_stops_witness :
    pb_print_fields lp64 ext_mem ["data", "note", "ext", "id"] 8 0
        [(data_field, none), (note_field, none)] 0 = ("- data: \n", .next)
    ∧ pb_print_internal lp64 ext_mem
        (.mk ["data", "note", "ext", "id"]
          ([(data_field, none), (note_field, none)] ++ (ext_field, none) :: [(id_field, none)]))
        8 0 = ("- data: \n", some false) :=
  ⟨by decide,
    C3_extension_stops lp64 ext_mem ["data", "note", "ext", "id"]
      [(data_field, none), (note_field, none)] [(id_field, none)] (ext_field, none) 8 0
      "- data: \n" rfl (by decide)⟩

/-! ## C4 -/

/-- C5 (the code departs from the claim): on the record with `id = 42` and
`name = "x"`, `field_is_empty` has no value for `id` (nor for `name`), so
`pb_pretty_print` stops with no text and no value instead of printing the two
lines and returning true; the block that prints a present field would write
exactly the lines of the claim. -/
theorem C5_flat_record_no_value :
    pb_pretty_print lp64 person_mem person_desc 8 = ("", none)
    ∧ field_is_empty lp64 person_mem (pb_field_iter_load person_mem 8 (id_field, none)) = none
    ∧ field_is_empty lp64 person_mem (pb_field_iter_load person_mem 8 (name_field, none)) = none
    ∧ print_regular_field lp64 person_mem no_traverse ["id", "name"] 0
        (pb_field_iter_load person_mem 8 (id_field, none)) 0 = ("- id: 0x2a\n", .next)
    ∧ print_regular_field lp64 person_mem no_traverse ["id", "name"] 1
        (pb_field_iter_load person_mem 8 (name_field, none)) 0 = ("- name: x\n", .next) := by
  decide

/-! ## C6 -/

theorem cursor_at_zero (field : pb_field_iter_t) : cursor_at field 0 = field := by
  cases field; simp [cursor_at]

theorem cursor_at_step (field : pb_field_iter_t) (j : Nat) :
    cursor_at { field with pData := field.pData + field.data_size } j
      = cursor_at field (j + 1) := by
  cases field
  simp only [cursor_at, pb_field_iter_t.mk.injEq, true_and, and_true]
  ring

theorem concat_texts_cons (s : String) (l : List String) :
    concat_texts (s :: l) = s ++ concat_texts l := rfl

theorem print_array_loop_ok (C : Ctx) (mem : Mem)
    (traverse : pb_msgdesc_t → Nat → Nat → Out) (indent : Nat) :
    ∀ (n : Nat) (field : pb_field_iter_t),
      (∀ j, j < n → (print_basic_field C mem traverse (cursor_at field j) indent).2 = some true) →
      print_array_loop C mem traverse indent n field =
        ((concat_texts ((List.range n).map
            (fun j => (print_basic_field C mem traverse (cursor_at field j) indent).1 ++ ","))
            ++ "]", some true), cursor_at field n) := by
  intro n
  induction n with
  | zero =>
    intro field _
    simp [print_array_loop, concat_texts, cursor_at_zero]
  | succ n ih =>
    intro field h
    have h0 := h 0 (by omega)
    rw [cursor_at_zero] at h0
    have hs : ∀ j, j < n → (print_basic_field C mem traverse
        (cursor_at { field with pData := field.pData + field.data_size } j) indent).2
        = some true := by
      intro j hj
      rw [cursor_at_step]
      exact h (j + 1) (by omega)
    simp only [print_array_loop, h0]
    rw [ih _ hs, List.range_succ_eq_map, List.map_cons, List.map_map, concat_texts_cons,
      cursor_at_zero, cursor_at_step]
    have hm : List.map (fun j => (print_basic_field C mem traverse
          (cursor_at { field with pData := field.pData + field.data_size } j) indent).1 ++ ",")
        (List.range n)
        = List.map ((fun j => (print_basic_field C mem traverse (cursor_at field j) indent).1
          ++ ",") ∘ Nat.succ) (List.range n) := by
      apply List.map_congr_left
      intro j _
      simp only [Function.comp, cursor_at_step]
    rw [hm]
    simp only [String.append_assoc]

/-- C6: when every element of a repeated field renders successfully,
`print_array` writes an opening bracket, each element in index order followed
by a comma (the last one too) and a closing bracket, returns true, and leaves
the cursor `count * data_size` bytes further; with no element the text is
`[]` and the cursor has not moved; the block that prints a present field puts
the indentation and the name before that text and a newline after it. -/
theorem C6_print_array (C : Ctx) (mem : Mem)
    (traverse : pb_msgdesc_t → Nat → Nat → Out) (field : pb_field_iter_t) (indent : Nat)
    (field_names : List String) (i : Nat) (name : String)
    (hsize : field.pSize ≠ 0)
    (hel : ∀ j, j < load C mem field.pSize C.sizeof_pb_size_t →
      (print_basic_field C mem traverse (cursor_at field j) indent).2 = some true) :
    print_array C mem traverse field indent =
      (("[" ++ concat_texts ((List.range (load C mem field.pSize C.sizeof_pb_size_t)).map
            (fun j => (print_basic_field C mem traverse (cursor_at field j) indent).1 ++ ","))
          ++ "]", some true),
        cursor_at field (load C mem field.pSize C.sizeof_pb_size_t))
    ∧ (load C mem field.pSize C.sizeof_pb_size_t = 0 →
        print_array C mem traverse field indent = (("[]", some true), field))
    ∧ (field.htype = .REPEATED → field.atype ≠ .CALLBACK →
        field_names.get? i = some name →
        print_regular_field C mem traverse field_names i field indent =
          (indentation indent ++ "- " ++ name ++ ": " ++
            ("[" ++ concat_texts ((List.range (load C mem field.pSize C.sizeof_pb_size_t)).map
              (fun j => (print_basic_field C mem traverse (cursor_at field j) indent).1 ++ ","))
            ++ "]") ++ "\n", .next)) := by
  have h1 : print_array C mem traverse field indent =
      (("[" ++ concat_texts ((List.range (load C mem field.pSize C.sizeof_pb_size_t)).map
            (fun j => (print_basic_field C mem traverse (cursor_at field j) indent).1 ++ ","))
          ++ "]", some true),
        cursor_at field (load C mem field.pSize C.sizeof_pb_size_t)) := by
    unfold print_array
    simp only [hsize, if_false]
    rw [print_array_loop_ok C mem traverse indent _ field hel, String.append_assoc]
  refine ⟨h1, ?_, ?_⟩
  · intro hk
    rw [h1, hk]
    simp [concat_texts, cursor_at_zero]
  · intro hrep hcb hname
    unfold print_regular_field print_field
    simp only [hname, hcb, hrep, if_true, if_false, h1]

/-- C6 (witness): the repeated integer field `values` with the elements 1, 2
and 3. -/
theorem C6_print_array_witness :
    print_array lp64 values_mem no_traverse (pb_field_iter_load values_mem 8 (values_field, none)) 0
      = (("[0x1,0x2,0x3,]", some true),
          cursor_at (pb_field_iter_load values_mem 8 (values_field, none)) 3)
    ∧ print_regular_field lp64 values_mem no_traverse ["values"] 0
        (pb_field_iter_load values_mem 8 (values_field, none)) 0
      = ("- values: [0x1,0x2,0x3,]\n", .next)
    ∧ (pb_field_iter_load values_mem 8 (values_field, none)).pData = 12
    ∧ (print_array lp64 values_mem no_traverse
        (pb_field_iter_load values_mem 8 (values_field, none)) 0).2.pData = 12 + 3 * 4 :=
  have h := C6_print_array lp64 values_mem no_traverse
    (pb_field_iter_load values_mem 8 (values_field, none)) 0 ["values"] 0 "values"
    (by decide) (by decide)
  ⟨h.1, h.2.2 rfl (by decide) rfl, by decide, by decide⟩

/-! ## C7 -/

theorem field_is_empty_oneof (C : Ctx) (mem : Mem) (field : pb_field_iter_t)
    (hone : field.htype = .ONEOF) (hsize : field.pSize ≠ 0) :
    field_is_empty C mem field =
      if load C mem field.pSize C.sizeof_pb_size_t ≠ field.tag then some true
      else if field.pData = 0 then some true else none := by
  simp [field_is_empty, hone, hsize]

theorem pb_print_iteration_absent (C : Ctx) (mem : Mem)
    (traverse : pb_msgdesc_t → Nat → Nat → Out) (field_names : List String)
    (i : Nat) (iter : pb_field_iter_t) (indent : Nat)
    (hext : iter.ltype ≠ .EXTENSION) (habs : field_is_empty C mem iter = some true) :
    pb_print_iteration C mem traverse field_names i iter indent = ("", .next) := by
  unfold pb_print_iteration
  simp only [hext, if_false, habs]

/-- C7 (counterexample): the union member `p` has tag 2 and the discriminant
cell holds 2, yet `field_is_empty` reports the member absent, because its data
pointer is null, and the loop body prints nothing for it. -/
theorem C7_oneof_counterexample :
    load lp64 union_null_mem (pb_field_iter_load union_null_mem 8 (member_p, none)).pSize
        lp64.sizeof_pb_size_t = (pb_field_iter_load union_null_mem 8 (member_p, none)).tag
    ∧ field_is_empty lp64 union_null_mem (pb_field_iter_load union_null_mem 8 (member_p, none))
        = some true
    ∧ pb_print_iteration lp64 union_null_mem no_traverse ["p"] 0
        (pb_field_iter_load union_null_mem 8 (member_p, none)) 0 = ("", .next) := by
  decide

/-- C7 (amended): a union member is reported absent by `field_is_empty`
exactly when the discriminant cell differs from its tag or its data pointer is
null; when the discriminant differs from the tag the loop body prints nothing
for the member. -/
theorem C7_oneof_absent_iff (C : Ctx) (mem : Mem) (field : pb_field_iter_t)
    (hone : field.htype = .ONEOF) (hsize : field.pSize ≠ 0) :
    (field_is_empty C mem field = some true ↔
      (load C mem field.pSize C.sizeof_pb_size_t ≠ field.tag ∨ field.pData = 0))
    ∧ ∀ (traverse : pb_msgdesc_t → Nat → Nat → Out) (field_names : List String)
        (i indent : Nat), field.ltype ≠ .EXTENSION →
        load C mem field.pSize C.sizeof_pb_size_t ≠ field.tag →
        pb_print_iteration C mem traverse field_names i field indent = ("", .next) := by
  have h := field_is_empty_oneof C mem field hone hsize
  constructor
  · rw [h]
    by_cases ht : load C mem field.pSize C.sizeof_pb_size_t ≠ field.tag
    · simp [ht]
    · by_cases hd : field.pData = 0
      · simp [ht, hd]
      · simp [ht, hd]
  · intro traverse field_names i indent hext ht
    apply pb_print_iteration_absent _ _ _ _ _ _ _ hext
    rw [h]
    simp [ht]

/-- C7 (witness): the member `b` (tag 2) of a record whose discriminant is 1. -/
theorem C7_oneof_absent_iff_witness :
    (field_is_empty lp64 union_a_mem (pb_field_iter_load union_a_mem 8 (member_b, none))
        = some true ↔
      (load lp64 union_a_mem (pb_field_iter_load union_a_mem 8 (member_b, none)).pSize
          lp64.sizeof_pb_size_t ≠ (pb_field_iter_load union_a_mem 8 (member_b, none)).tag
        ∨ (pb_field_iter_load union_a_mem 8 (member_b, none)).pData = 0))
    ∧ pb_print_iteration lp64 union_a_mem no_traverse ["a", "b"] 1
        (pb_field_iter_load union_a_mem 8 (member_b, none)) 0 = ("", .next) :=
  have h := C7_oneof_absent_iff lp64 union_a_mem
    (pb_field_iter_load union_a_mem 8 (member_b, none)) rfl (by decide)
  ⟨h.1, h.2 no_traverse ["a", "b"] 1 0 (by decide) (by decide)⟩

/-! ## C8 -/

theorem filter_tag_length_le_one (members : List pb_field_iter_t) (t : Nat)
    (htags : (members.map (fun f => f.tag)).Nodup) :
    (members.filter (fun f => decide (f.tag = t))).length ≤ 1 := by
  have h1 : (members.map (fun f => f.tag)).count t ≤ 1 :=
    List.nodup_iff_count_le_one.mp htags t
  rw [List.count, List.countP_map, List.countP_eq_length_filter] at h1
  have h2 : (members.filter (fun f => decide (f.tag = t)))
      = members.filter ((fun x => x == t) ∘ fun f => f.tag) := by
    apply List.filter_congr
    intro f _
    by_cases hft : f.tag = t <;> simp [hft]
  rw [h2]
  exact h1

theorem filter_length_le_of_imp (l : List pb_field_iter_t) (p q : pb_field_iter_t → Bool)
    (h : ∀ f ∈ l, p f = true → q f = true) :
    (l.filter p).length ≤ (l.filter q).length := by
  induction l with
  | nil => simp
  | cons a l ih =>
    have ih2 := ih (fun f hf => h f (List.mem_cons_of_mem a hf))
    have ha := h a (List.mem_cons_self a l)
    by_cases hpa : p a = true
    · have hqa := ha hpa
      simp only [List.filter_cons, hpa, hqa, if_true, List.length_cons]
      omega
    · have hpa2 : p a = false := by simpa using hpa
      by_cases hqa : q a = true
      · simp only [List.filter_cons, hpa2, hqa, if_true, List.length_cons]
        simp only [Bool.false_eq_true, if_false]
        omega
      · have hqa2 : q a = false := by simpa using hqa
        simp only [List.filter_cons, hpa2, hqa2, Bool.false_eq_true, if_false]
        exact ih2

/-- C8 (counterexample): both members of the union have tags different from
the discriminant 0 of the record; `field_is_empty` reports both absent and
the traversal prints no member. -/
theorem C8_oneof_counterexample :
    ([pb_field_iter_load union_unset_mem 8 (member_a, none),
        pb_field_iter_load union_unset_mem 8 (member_b, none)].filter
      (fun f => decide (field_is_empty lp64 union_unset_mem f ≠ some true))).length = 0
    ∧ pb_pretty_print lp64 union_unset_mem union_desc 8 = ("\n", none) := by
  decide

/-- C8 (amended): among the members of a union (same discriminant cell,
pairwise distinct tags) at most one is not reported absent by `field_is_empty`,
and none when no tag equals the discriminant. -/
theorem C8_oneof_at_most_one (C : Ctx) (mem : Mem) (members : List pb_field_iter_t)
    (p : Nat) (hp : p ≠ 0)
    (hmem : ∀ f ∈ members, f.htype = .ONEOF ∧ f.pSize = p)
    (htags : (members.map (fun f => f.tag)).Nodup) :
    (members.filter (fun f => decide (field_is_empty C mem f ≠ some true))).length ≤ 1
    ∧ ((∀ f ∈ members, f.tag ≠ load C mem p C.sizeof_pb_size_t) →
        ∀ f ∈ members, field_is_empty C mem f = some true) := by
  constructor
  · refine le_trans ?_ (filter_tag_length_le_one members (load C mem p C.sizeof_pb_size_t) htags)
    apply filter_length_le_of_imp
    intro f hf hne
    simp only [decide_eq_true_eq] at hne ⊢
    obtain ⟨h1, h2⟩ := hmem f hf
    by_contra ht
    apply hne
    rw [field_is_empty_oneof C mem f h1 (by rw [h2]; exact hp), h2]
    simp [Ne.symm ht]
  · intro hall f hf
    obtain ⟨h1, h2⟩ := hmem f hf
    rw [field_is_empty_oneof C mem f h1 (by rw [h2]; exact hp), h2]
    have := hall f hf
    simp [Ne.symm this]

/-- C8 (witness): the members `a` and `b` of a record whose discriminant is
1: only `a` is not reported absent. -/
theorem C8_oneof_at_most_one_witness :
    ([pb_field_iter_load union_a_mem 8 (member_a, none),
        pb_field_iter_load union_a_mem 8 (member_b, none)].filter
      (fun f => decide (field_is_empty lp64 union_a_mem f ≠ some true))).length ≤ 1
    ∧ ([pb_field_iter_load union_a_mem 8 (member_a, none),
        pb_field_iter_load union_a_mem 8 (member_b, none)].filter
      (fun f => decide (field_is_empty lp64 union_a_mem f ≠ some true))).length = 1 :=
  ⟨(C8_oneof_at_most_one lp64 union_a_mem
      [pb_field_iter_load union_a_mem 8 (member_a, none),
        pb_field_iter_load union_a_mem 8 (member_b, none)] 8 (by decide)
      (by decide) (by decide)).1, by decide⟩

/-! ## C9 -/

theorem safe_read_bool_eq_false_iff (C : Ctx) (mem : Mem) (p : Nat) :
    safe_read_bool C mem p = false ↔ ∀ i, i < C.sizeof_bool → byte mem (p + i) = 0 := by
  unfold safe_read_bool
  rw [Bool.eq_false_iff]
  simp [List.any_eq_true]

theorem field_is_empty_optional (C : Ctx) (mem : Mem) (field : pb_field_iter_t)
    (hopt : field.htype = .OPTIONAL) (hsize : field.pSize ≠ 0) :
    field_is_empty C mem field =
      if safe_read_bool C mem field.pSize = false then some true
      else if field.pData = 0 then some true else none := by
  simp [field_is_empty, hopt, hsize]

/-- C9 (counterexample): the optional field `opt` has its presence cell set to
1, yet `field_is_empty` reports it absent, because its data pointer is null,
and the loop body prints nothing for it. -/
theorem C9_presence_cell_counterexample :
    safe_read_bool lp64 opt_null_mem (pb_field_iter_load opt_null_mem 8 (opt_field, none)).pSize
        = true
    ∧ field_is_empty lp64 opt_null_mem (pb_field_iter_load opt_null_mem 8 (opt_field, none))
        = some true
    ∧ pb_print_iteration lp64 opt_null_mem no_traverse ["opt"] 0
        (pb_field_iter_load opt_null_mem 8 (opt_field, none)) 0 = ("", .next) := by
  decide

/-- C9 (amended): `safe_read_bool` is false exactly when every byte it reads
of the presence cell is zero; an optional field with a presence cell is
reported absent by `field_is_empty` exactly when every such byte is zero or
its data pointer is null; and for a field reported absent the loop body prints
nothing. -/
theorem C9_optional_presence_cell (C : Ctx) (mem : Mem) (field : pb_field_iter_t)
    (hopt : field.htype = .OPTIONAL) (hsize : field.pSize ≠ 0) :
    (safe_read_bool C mem field.pSize = false ↔
      ∀ i, i < C.sizeof_bool → byte mem (field.pSize + i) = 0)
    ∧ (field_is_empty C mem field = some true ↔
      ((∀ i, i < C.sizeof_bool → byte mem (field.pSize + i) = 0) ∨ field.pData = 0))
    ∧ ∀ (traverse : pb_msgdesc_t → Nat → Nat → Out) (field_names : List String)
        (i indent : Nat), field.ltype ≠ .EXTENSION →
        (∀ i, i < C.sizeof_bool → byte mem (field.pSize + i) = 0) →
        pb_print_iteration C mem traverse field_names i field indent = ("", .next) := by
  have hb := safe_read_bool_eq_false_iff C mem field.pSize
  have h := field_is_empty_optional C mem field hopt hsize
  refine ⟨hb, ?_, ?_⟩
  · rw [h, ← hb]
    by_cases hs : safe_read_bool C mem field.pSize = false
    · simp [hs]
    · by_cases hd : field.pData = 0
      · simp [hs, hd]
      · simp [hs, hd]
  · intro traverse field_names i indent hext hz
    apply pb_print_iteration_absent _ _ _ _ _ _ _ hext
    rw [h]
    simp [hb.mpr hz]

/-- C9 (witness): the optional field `note`, whose presence cell is zero. -/
theorem C9_optional_presence_cell_witness :
    (safe_read_bool lp64 ext_mem (pb_field_iter_load ext_mem 8 (note_field, none)).pSize = false ↔
      ∀ i, i < lp64.sizeof_bool →
        byte ext_mem ((pb_field_iter_load ext_mem 8 (note_field, none)).pSize + i) = 0)
    ∧ field_is_empty lp64 ext_mem (pb_field_iter_load ext_mem 8 (note_field, none)) = some true
    ∧ pb_print_iteration lp64 ext_mem no_traverse ["data", "note"] 1
        (pb_field_iter_load ext_mem 8 (note_field, none)) 0 = ("", .next) :=
  have h := C9_optional_presence_cell lp64 ext_mem
    (pb_field_iter_load ext_mem 8 (note_field, none)) rfl (by decide)
  ⟨h.1, h.2.1.mpr (Or.inl (by decide)), h.2.2 no_traverse ["data", "note"] 1 0 (by decide)
    (by decide)⟩

/-! ## C10 -/

theorem byte_lt (mem : Mem) (a : Nat) : byte mem a < 256 := Nat.mod_lt _ (by decide)

theorem loadLE_lt (mem : Mem) : ∀ (n a : Nat), loadLE mem a n < 256 ^ n := by
  intro n
  induction n with
  | zero => intro a; simp [loadLE]
  | succ n ih =>
    intro a
    have h1 := ih (a + 1)
    have h2 := byte_lt mem a
    simp only [loadLE, pow_succ]
    omega

theorem loadBE_lt (mem : Mem) (a : Nat) : ∀ n : Nat, loadBE mem a n < 256 ^ n := by
  intro n
  induction n with
  | zero => simp [loadBE]
  | succ n ih =>
    have h2 := byte_lt mem (a + n)
    unfold loadBE at ih ⊢
    rw [List.range_succ, List.foldl_append]
    simp only [List.foldl_cons, List.foldl_nil, pow_succ]
    omega

theorem load_lt (C : Ctx) (mem : Mem) (a n : Nat) : load C mem a n < 2 ^ (8 * n) := by
  have e : (2 : Nat) ^ (8 * n) = 256 ^ n := by rw [pow_mul]; norm_num
  rw [e]
  unfold load
  split
  · exact loadBE_lt mem a n
  · exact loadLE_lt mem n a

theorem toDigitsCore_digits : ∀ (fuel n : Nat) (acc : List Char), n < fuel →
    Nat.toDigitsCore 16 fuel n acc =
      (if n = 0 then ['0'] else (Nat.digits 16 n).reverse.map Nat.digitChar) ++ acc := by
  intro fuel
  induction fuel with
  | zero => intro n acc h; omega
  | succ fuel ih =>
    intro n acc h
    simp only [Nat.toDigitsCore]
    by_cases hq : n / 16 = 0
    · simp only [hq, if_true]
      have hlt : n < 16 := by omega
      by_cases hn : n = 0
      · subst hn; rfl
      · have hd : Nat.digits 16 n = [n] := Nat.digits_of_lt 16 n hn hlt
        simp [hn, hd, Nat.mod_eq_of_lt hlt]
    · simp only [hq, if_false]
      have hn : n ≠ 0 := by
        intro h0; subst h0; simp at hq
      have hlt : n / 16 < fuel := by omega
      rw [ih (n / 16) _ hlt]
      have hd : Nat.digits 16 n = (n % 16) :: Nat.digits 16 (n / 16) :=
        Nat.digits_def' (by decide) (Nat.pos_of_ne_zero hn)
      simp [hq, hn, hd]

theorem hex_eq_digits (v : Nat) :
    hex v = String.mk (if v = 0 then ['0'] else (Nat.digits 16 v).reverse.map Nat.digitChar) := by
  unfold hex Nat.toDigits
  rw [toDigitsCore_digits (v + 1) v [] (by omega), List.append_nil]

theorem digitChar_lowercase : ∀ d, d < 16 → Nat.digitChar d ∈ "0123456789abcdef".data := by
  decide

theorem hex_lowercase (v : Nat) : ∀ c ∈ (hex v).data, c ∈ "0123456789abcdef".data := by
  intro c hc
  rw [hex_eq_digits] at hc
  by_cases hv : v = 0
  · simp only [hv, if_true, List.mem_singleton] at hc
    subst hc
    decide
  · simp only [hv, if_false, List.mem_map, List.mem_reverse] at hc
    obtain ⟨d, hd, rfl⟩ := hc
    exact digitChar_lowercase d (Nat.digits_lt_base (by decide) hd)


/-- C10: with data present, `print_int` on a declared width of 1, 2, 4 or 8
bytes writes `0x` and the lower-case hexadecimal digits, most significant
first and without leading zeros, of the unsigned value of exactly that many
bytes (a value below `2 ^ (8 * width)`, so no sign extension), and returns
true; on any other width it writes nothing and returns false; and
`print_basic_field` sends the three integer kinds to `print_int`. -/
theorem C10_print_int (C : Ctx) (mem : Mem) (field : pb_field_iter_t)
    (hdata : field.pData ≠ 0) :
    ((field.data_size = 1 ∨ field.data_size = 2 ∨ field.data_size = 4 ∨ field.data_size = 8) →
      print_int C mem field
          = ("0x" ++ hex (load C mem field.pData field.data_size), some true)
      ∧ load C mem field.pData field.data_size < 2 ^ (8 * field.data_size)
      ∧ hex (load C mem field.pData field.data_size)
          = String.mk (if load C mem field.pData field.data_size = 0 then ['0']
              else (Nat.digits 16 (load C mem field.pData field.data_size)).reverse.map
                Nat.digitChar)
      ∧ ∀ c ∈ (hex (load C mem field.pData field.data_size)).data,
          c ∈ "0123456789abcdef".data)
    ∧ (¬ (field.data_size = 1 ∨ field.data_size = 2 ∨ field.data_size = 4 ∨
          field.data_size = 8) →
        print_int C mem field = ("", some false))
    ∧ ∀ (traverse : pb_msgdesc_t → Nat → Nat → Out) (indent : Nat),
        (field.ltype = .VARINT ∨ field.ltype = .UVARINT ∨ field.ltype = .SVARINT) →
        print_basic_field C mem traverse field indent = print_int C mem field := by
  refine ⟨?_, ?_, ?_⟩
  · intro hw
    refine ⟨?_, load_lt C mem _ _, hex_eq_digits _, hex_lowercase _⟩
    have hw2 : field.data_size = 8 ∨ field.data_size = 4 ∨ field.data_size = 2 ∨
        field.data_size = 1 := by omega
    simp [print_int, hw2, hdata]
  · intro hw
    have hw2 : ¬ (field.data_size = 8 ∨ field.data_size = 4 ∨ field.data_size = 2 ∨
        field.data_size = 1) := by omega
    simp only [print_int, hw2, if_false]
  · intro traverse indent hl
    unfold print_basic_field
    rcases hl with hl | hl | hl <;> simp [hl, hdata]

/-- C10 (witness): the four bytes `fe ff ff ff` (the signed value -2) print as
`0xfffffffe`, a single byte `fe` as `0xfe`, and a width of 3 bytes fails. -/
theorem C10_print_int_witness :
    print_int lp64 neg_mem (int_cursor 4) = ("0xfffffffe", some true)
    ∧ print_int lp64 neg_mem (int_cursor 1) = ("0xfe", some true)
    ∧ print_int lp64 neg_mem (int_cursor 3) = ("", some false)
    ∧ print_basic_field lp64 neg_mem no_traverse (int_cursor 8) 0
        = ("0xfffffffffffffffe", some true) :=
  ⟨((C10_print_int lp64 neg_mem (int_cursor 4) (by decide)).1 (by decide)).1,
    ((C10_print_int lp64 neg_mem (int_cursor 1) (by decide)).1 (by decide)).1,
    (C10_print_int lp64 neg_mem (int_cursor 3) (by decide)).2.1 (by decide),
    by decide⟩

/-! ## C11 -/

theorem indentation_eq_spaces (d : Nat) :
    indentation d = String.mk (List.replicate (4 * d) ' ') := by
  induction d with
  | zero => rfl
  | succ d ih =>
    have e : 4 * (d + 1) = 4 + 4 * d := by ring
    rw [indentation, ih, e, List.replicate_add]
    rfl

/-- The text one pass through the loop body writes is empty or starts with the
indentation, a dash and the name under the counter. -/
theorem pb_print_iteration_text (C : Ctx) (mem : Mem)
    (traverse : pb_msgdesc_t → Nat → Nat → Out) (field_names : List String)
    (i : Nat) (iter : pb_field_iter_t) (indent : Nat) (name : String)
    (hname : field_names.get? i = some name) :
    (pb_print_iteration C mem traverse field_names i iter indent).1 = "" ∨
      ∃ rest, (pb_print_iteration C mem traverse field_names i iter indent).1
        = indentation indent ++ "- " ++ name ++ ": " ++ rest := by
  unfold pb_print_iteration
  by_cases he : iter.ltype = .EXTENSION
  · left; simp [he]
  · simp only [he, if_false]
    rcases hf : field_is_empty C mem iter with _ | b
    · left; rfl
    · cases b with
      | true => left; rfl
      | false =>
        right
        simp only [print_regular_field, hname]
        rcases hr : (print_field C mem traverse iter indent).1.2 with _ | b2
        · exact ⟨_, rfl⟩
        · cases b2 with
          | true => exact ⟨(print_field C mem traverse iter indent).1.1 ++ "\n", by
              simp only [String.append_assoc]⟩
          | false => exact ⟨_, rfl⟩

/-- C11: the top-level traversal runs at indentation 0; every text one pass of
the loop body writes for a field of a record traversed at indentation `d` is
empty or starts with exactly `4 * d` spaces, then a dash, a space, the name of
the field, a colon and a space; a nested-record field printed at indentation
`n` has its child record traversed at indentation `n + 1`; at depth three the
names are preceded by 12 spaces. -/
theorem C11_indentation (C : Ctx) (mem : Mem)
    (traverse : pb_msgdesc_t → Nat → Nat → Out) (field_names : List String)
    (i : Nat) (iter : pb_field_iter_t) (d : Nat) (name : String)
    (hname : field_names.get? i = some name) :
    ((pb_print_iteration C mem traverse field_names i iter d).1 = "" ∨
      ∃ rest, (pb_print_iteration C mem traverse field_names i iter d).1
        = String.mk (List.replicate (4 * d) ' ') ++ "- " ++ name ++ ": " ++ rest)
    ∧ (∀ (fields : pb_msgdesc_t) (src_struct : Nat),
        pb_pretty_print C mem fields src_struct = pb_print_internal C mem fields src_struct 0)
    ∧ (∀ (g : pb_field_iter_t) (sub : pb_msgdesc_t) (n : Nat),
        g.atype ≠ .CALLBACK → g.htype ≠ .REPEATED → g.ltype = .SUBMESSAGE →
        g.pData ≠ 0 → g.submsg_desc = some sub →
        (print_field C mem (pb_print_internal C mem) g n).1
          = ("\n" ++ (pb_print_internal C mem sub g.pData (n + 1)).1,
              (pb_print_internal C mem sub g.pData (n + 1)).2))
    ∧ indentation 3 = "            " := by
  refine ⟨?_, fun _ _ => rfl, ?_, by decide⟩
  · rw [← indentation_eq_spaces]
    exact pb_print_iteration_text C mem traverse field_names i iter d name hname
  · intro g sub n ha hh hl hp hd
    simp [print_field, print_basic_field, print_submessage, ha, hh, hl, hp, hd]

/-- C11 (witness): the field `data` of a record nested under `sub`, itself
printed at indentation 2, is written after 12 spaces. -/
theorem C11_indentation_witness :
    (pb_print_iteration lp64 null_mem no_traverse ["data"] 0
        (pb_field_iter_load null_mem 8 (data_field, none)) 3).1
      = String.mk (List.replicate (4 * 3) ' ') ++ "- " ++ "data" ++ ": " ++ "\n"
    ∧ (print_field lp64 null_mem (pb_print_internal lp64 null_mem)
        (pb_field_iter_load null_mem 8 (sub_field, some data_desc)) 2).1
      = ("\n" ++ "            - data: \n\n", none) :=
  have h := C11_indentation lp64 null_mem no_traverse ["data"] 0
    (pb_field_iter_load null_mem 8 (data_field, none)) 3 "data" rfl
  ⟨by decide,
    (h.2.2.1 (pb_field_iter_load null_mem 8 (sub_field, some data_desc)) data_desc 2
      (by decide) (by decide) rfl (by decide) rfl).trans (by decide)⟩

/-! ## C12 -/

/-- C12 (counterexample): the nested-record field `sub` has data and a null
nested descriptor; `print_field` writes the newline and returns false, and the
block that prints the field ends the traversal with false. -/
theorem C12_null_descriptor_counterexample :
    (pb_field_iter_load ext_mem 8 (sub_field, none)).submsg_desc = none
    ∧ (print_field lp64 ext_mem (pb_print_internal lp64 ext_mem)
        (pb_field_iter_load ext_mem 8 (sub_field, none)) 0).1 = ("\n", some false)
    ∧ print_regular_field lp64 ext_mem (pb_print_internal lp64 ext_mem) ["sub", "id"] 0
        (pb_field_iter_load ext_mem 8 (sub_field, none)) 0
        = ("- sub: \n", .ret (some false)) :=
  ⟨rfl, by decide, by decide⟩

/-- C12 (amended): for a nested-record field with data whose nested descriptor
reference is null, rendering is an error: `print_submessage` returns false,
`print_field` writes the newline of the scalar path and returns false, and the
block that prints the field ends the traversal with false after the name and
that newline, so no following field is printed. -/
theorem C12_null_descriptor_fails (C : Ctx) (mem : Mem)
    (traverse : pb_msgdesc_t → Nat → Nat → Out) (field_names : List String)
    (i : Nat) (field : pb_field_iter_t) (indent : Nat) (name : String)
    (hkind : field.ltype = .SUBMESSAGE) (hnull : field.submsg_desc = none)
    (hdata : field.pData ≠ 0) (hcb : field.atype ≠ .CALLBACK)
    (hrep : field.htype ≠ .REPEATED) (hname : field_names.get? i = some name) :
    print_submessage traverse field indent = ("", some false)
    ∧ (print_field C mem traverse field indent).1 = ("\n", some false)
    ∧ print_regular_field C mem traverse field_names i field indent
        = (indentation indent ++ "- " ++ name ++ ": " ++ "\n", .ret (some false)) := by
  have h1 : print_submessage traverse field indent = ("", some false) := by
    simp [print_submessage, hnull]
  have h2 : (print_field C mem traverse field indent).1 = ("\n", some false) := by
    simp [print_field, print_basic_field, hcb, hrep, hdata, hkind, h1]
  refine ⟨h1, h2, ?_⟩
  unfold print_regular_field
  simp only [hname, h2]

/-- C12 (witness): the field `sub` with data and no nested descriptor. -/
theorem C12_null_descriptor_fails_witness :
    print_submessage no_traverse (pb_field_iter_load ext_mem 8 (sub_field, none)) 1
      = ("", some false)
    ∧ (print_field lp64 ext_mem no_traverse
        (pb_field_iter_load ext_mem 8 (sub_field, none)) 1).1 = ("\n", some false)
    ∧ print_regular_field lp64 ext_mem no_traverse ["sub"] 0
        (pb_field_iter_load ext_mem 8 (sub_field, none)) 1
        = (indentation 1 ++ "- " ++ "sub" ++ ": " ++ "\n", .ret (some false)) :=
  C12_null_descriptor_fails lp64 ext_mem no_traverse ["sub"] 0
    (pb_field_iter_load ext_mem 8 (sub_field, none)) 1 "sub" rfl rfl (by decide)
    (by decide) (by decide) rfl

/-! ## C13 -/

/-- C13 (counterexample): on a descriptor with zero fields the traversal
returns true and writes nothing, not a newline. -/
theorem C13_empty_descriptor_counterexample :
    pb_pretty_print lp64 null_mem (.mk [] []) 8 = ("", some true)
    ∧ (pb_pretty_print lp64 null_mem (.mk [] []) 8).1 ≠ "\n" := by
  decide

/-- C13 (amended): on a descriptor with zero fields the traversal writes
nothing and returns true; on a descriptor with at least one field, a traversal
whose loop passes every field writes one newline after the text of the
fields. -/
theorem C13_trailing_newline (C : Ctx) (mem : Mem) (field_names : List String)
    (f : pb_field_info_t × Option pb_msgdesc_t)
    (fs : List (pb_field_info_t × Option pb_msgdesc_t)) (src_struct indent : Nat)
    (o : String)
    (hloop : pb_print_fields C mem field_names src_struct indent (f :: fs) 0 = (o, .next)) :
    pb_print_internal C mem (.mk field_names []) src_struct indent = ("", some true)
    ∧ (pb_print_internal C mem (.mk field_names (f :: fs)) src_struct indent).1
        = o ++ "\n" := by
  constructor
  · unfold pb_print_internal
    rfl
  · rw [pb_print_internal_cons, hloop]

/-- C13 (witness): the record with the null pointer field `data`. -/
theorem C13_trailing_newline_witness :
    pb_print_internal lp64 null_mem (.mk ["data"] []) 8 0 = ("", some true)
    ∧ (pb_print_internal lp64 null_mem (.mk ["data"] [(data_field, none)]) 8 0).1
        = "- data: \n" ++ "\n" :=
  C13_trailing_newline lp64 null_mem ["data"] (data_field, none) [] 8 0 "- data: \n"
    (by decide)

/-! ## C14 -/

/-- C14: on a field with callback storage `print_field` returns false and
writes nothing, whatever the multiplicity, the value kind, the memory and the
traversal handed to it (nothing is read and nothing is called), so the block
that prints the field ends the traversal with false right after the name; and
`print_basic_field` returns false without text on a value of kind
nested-record-with-callback. -/
theorem C14_callback_fails (C : Ctx) (mem : Mem)
    (traverse : pb_msgdesc_t → Nat → Nat → Out) (field : pb_field_iter_t) (indent : Nat)
    (hcb : field.atype = .CALLBACK) :
    print_field C mem traverse field indent = (("", some false), field)
    ∧ (∀ (C2 : Ctx) (mem2 : Mem) (traverse2 : pb_msgdesc_t → Nat → Nat → Out),
        print_field C2 mem2 traverse2 field indent = print_field C mem traverse field indent)
    ∧ (∀ (field_names : List String) (i : Nat) (name : String),
        field_names.get? i = some name →
        print_regular_field C mem traverse field_names i field indent
          = (indentation indent ++ "- " ++ name ++ ": " ++ "", .ret (some false)))
    ∧ ∀ g : pb_field_iter_t, g.ltype = .SUBMSG_W_CB → g.pData ≠ 0 →
        print_basic_field C mem traverse g indent = ("", some false) := by
  have h1 : ∀ (C2 : Ctx) (mem2 : Mem) (traverse2 : pb_msgdesc_t → Nat → Nat → Out),
      print_field C2 mem2 traverse2 field indent = (("", some false), field) := by
    intro C2 mem2 traverse2
    simp [print_field, hcb]
  refine ⟨h1 C mem traverse, ?_, ?_, ?_⟩
  · intro C2 mem2 traverse2
    rw [h1 C2 mem2 traverse2, h1 C mem traverse]
  · intro field_names i name hname
    unfold print_regular_field
    simp only [hname, h1 C mem traverse]
  · intro g hk hd
    simp [print_basic_field, hk, hd]

/-- C14 (witness): the callback field `cb`, and a cursor of kind
nested-record-with-callback on the data at address 8. -/
theorem C14_callback_fails_witness :
    (print_field lp64 ext_mem no_traverse (pb_field_iter_load ext_mem 8 (cb_field, none)) 0).1
      = ("", some false)
    ∧ print_regular_field lp64 ext_mem no_traverse ["cb"] 0
        (pb_field_iter_load ext_mem 8 (cb_field, none)) 0 = ("- cb: ", .ret (some false))
    ∧ print_basic_field lp64 ext_mem no_traverse
        { int_cursor 8 with ltype := .SUBMSG_W_CB } 0 = ("", some false) :=
  have h := C14_callback_fails lp64 ext_mem no_traverse
    (pb_field_iter_load ext_mem 8 (cb_field, none)) 0 rfl
  ⟨congrArg Prod.fst h.1, (h.2.2.1 ["cb"] 0 "cb" rfl).trans (by decide),
    h.2.2.2 { int_cursor 8 with ltype := .SUBMSG_W_CB } rfl (by decide)⟩

/-! ## print_array, element by element -/

/-- The array loop when the elements before index `j` render successfully and
the element at `j` does not: the loop stops there, after the comma, with the
cursor on element `j`. -/
theorem print_array_loop_stop (C : Ctx) (mem : Mem)
    (traverse : pb_msgdesc_t → Nat → Nat → Out) (indent : Nat) :
    ∀ (n : Nat) (field : pb_field_iter_t) (j : Nat) (e : Option Bool), j < n →
      (∀ k, k < j → (print_basic_field C mem traverse (cursor_at field k) indent).2 = some true) →
      (print_basic_field C mem traverse (cursor_at field j) indent).2 = e →
      e ≠ some true →
      print_array_loop C mem traverse indent n field =
        ((concat_texts ((List.range j).map
            (fun k => (print_basic_field C mem traverse (cursor_at field k) indent).1 ++ ","))
            ++ ((print_basic_field C mem traverse (cursor_at field j) indent).1 ++ ","), e),
          cursor_at field j) := by
  intro n
  induction n with
  | zero => intro field j e hj; omega
  | succ n ih =>
    intro field j e hj hbefore hat hne
    cases j with
    | zero =>
      rw [cursor_at_zero] at hat ⊢
      simp only [print_array_loop, List.range_zero, List.map_nil]
      rcases e with _ | b
      · simp only [hat]
        simp [concat_texts]
      · cases b with
        | true => exact absurd rfl hne
        | false =>
          simp only [hat]
          simp [concat_texts]
    | succ j =>
      have h0 := hbefore 0 (by omega)
      rw [cursor_at_zero] at h0
      have hb : ∀ k, k < j → (print_basic_field C mem traverse
          (cursor_at { field with pData := field.pData + field.data_size } k) indent).2
          = some true := by
        intro k hk
        rw [cursor_at_step]
        exact hbefore (k + 1) (by omega)
      have ha : (print_basic_field C mem traverse
          (cursor_at { field with pData := field.pData + field.data_size } j) indent).2 = e := by
        rw [cursor_at_step]
        exact hat
      simp only [print_array_loop, h0]
      rw [ih _ j e (by omega) hb ha hne, List.range_succ_eq_map, List.map_cons, List.map_map,
        concat_texts_cons, cursor_at_zero, cursor_at_step]
      have hm : List.map (fun k => (print_basic_field C mem traverse
            (cursor_at { field with pData := field.pData + field.data_size } k) indent).1 ++ ",")
          (List.range j)
          = List.map ((fun k => (print_basic_field C mem traverse (cursor_at field k) indent).1
            ++ ",") ∘ Nat.succ) (List.range j) := by
        apply List.map_congr_left
        intro k _
        simp only [Function.comp, cursor_at_step]
      rw [hm]
      simp only [String.append_assoc]

/-- Where the array loop leaves the cursor, in every case: on an element
`j ≤ n`, the elements before `j` having rendered successfully; `j < n` exactly
when the element at `j` did not. -/
theorem print_array_loop_cases (C : Ctx) (mem : Mem)
    (traverse : pb_msgdesc_t → Nat → Nat → Out) (indent : Nat)
    (n : Nat) (field : pb_field_iter_t) :
    ((print_array_loop C mem traverse indent n field).1.2 = some true
      ∧ (print_array_loop C mem traverse indent n field).2 = cursor_at field n)
    ∨ ∃ j, j < n
      ∧ (∀ k, k < j →
          (print_basic_field C mem traverse (cursor_at field k) indent).2 = some true)
      ∧ (print_basic_field C mem traverse (cursor_at field j) indent).2 ≠ some true
      ∧ (print_array_loop C mem traverse indent n field).1.2
          = (print_basic_field C mem traverse (cursor_at field j) indent).2
      ∧ (print_array_loop C mem traverse indent n field).2 = cursor_at field j := by
  by_cases hall : ∀ k, k < n →
      (print_basic_field C mem traverse (cursor_at field k) indent).2 = some true
  · left
    rw [print_array_loop_ok C mem traverse indent n field hall]
    exact ⟨rfl, rfl⟩
  · right
    have hex : ∃ k, k < n ∧
        (print_basic_field C mem traverse (cursor_at field k) indent).2 ≠ some true := by
      by_contra hno
      apply hall
      intro k hk
      by_contra hk2
      exact hno ⟨k, hk, hk2⟩
    classical
    have hj := Nat.find_spec hex
    have hmin : ∀ k, k < Nat.find hex →
        (print_basic_field C mem traverse (cursor_at field k) indent).2 = some true := by
      intro k hk
      by_contra hk2
      exact Nat.find_min hex hk ⟨by omega, hk2⟩
    refine ⟨Nat.find hex, hj.1, hmin, hj.2, ?_, ?_⟩
    · rw [print_array_loop_stop C mem traverse indent n field _ _ hj.1 hmin rfl hj.2]
    · rw [print_array_loop_stop C mem traverse indent n field _ _ hj.1 hmin rfl hj.2]



/-! ## When print_field returns false -/

theorem print_basic_field_false (C : Ctx) (mem : Mem)
    (traverse : pb_msgdesc_t → Nat → Nat → Out) (field : pb_field_iter_t) (indent : Nat)
    (h : (print_basic_field C mem traverse field indent).2 = some false) :
    field.pData ≠ 0 ∧
      (((field.ltype = .VARINT ∨ field.ltype = .UVARINT ∨ field.ltype = .SVARINT) ∧
          ¬ (field.data_size = 1 ∨ field.data_size = 2 ∨ field.data_size = 4 ∨
            field.data_size = 8))
        ∨ field.ltype = .SUBMSG_W_CB ∨ field.ltype = .EXTENSION ∨ field.ltype = .OTHER
        ∨ (field.ltype = .SUBMESSAGE ∧
            (field.submsg_desc = none ∨
              ∃ d, field.submsg_desc = some d ∧
                (traverse d field.pData (indent + 1)).2 = some false))) := by
  unfold print_basic_field at h
  by_cases hd : field.pData = 0
  · simp [hd] at h
  · refine ⟨hd, ?_⟩
    simp only [hd, if_false] at h
    have hint : (print_int C mem field).2 = some false →
        ¬ (field.data_size = 1 ∨ field.data_size = 2 ∨ field.data_size = 4 ∨
          field.data_size = 8) := by
      intro hi hw
      have hw2 : field.data_size = 8 ∨ field.data_size = 4 ∨ field.data_size = 2 ∨
          field.data_size = 1 := by omega
      simp [print_int, hw2, hd] at hi
    cases hl : field.ltype <;> simp only [hl] at h
    · simp at h
    · exact Or.inl ⟨Or.inl rfl, hint h⟩
    · exact Or.inl ⟨Or.inr (Or.inl rfl), hint h⟩
    · exact Or.inl ⟨Or.inr (Or.inr rfl), hint h⟩
    · simp at h
    · simp at h
    · simp at h
    · simp at h
    · right; right; right; right
      refine ⟨rfl, ?_⟩
      unfold print_submessage at h
      cases hs : field.submsg_desc with
      | none => exact Or.inl rfl
      | some d =>
        right
        simp only [hs] at h
        exact ⟨d, rfl, h⟩
    · exact Or.inr (Or.inl rfl)
    · exact Or.inr (Or.inr (Or.inl rfl))
    · simp at h
    · exact Or.inr (Or.inr (Or.inr (Or.inl rfl)))

theorem print_field_false (C : Ctx) (mem : Mem)
    (traverse : pb_msgdesc_t → Nat → Nat → Out) (field : pb_field_iter_t) (indent : Nat)
    (h : (print_field C mem traverse field indent).1.2 = some false) :
    field.atype = .CALLBACK
    ∨ (field.htype = .REPEATED ∧
        ∃ j, j < load C mem field.pSize C.sizeof_pb_size_t ∧
          (print_basic_field C mem traverse (cursor_at field j) indent).2 = some false)
    ∨ (field.htype ≠ .REPEATED ∧
        (print_basic_field C mem traverse field indent).2 = some false) := by
  by_cases hcb : field.atype = .CALLBACK
  · exact Or.inl hcb
  · right
    unfold print_field at h
    simp only [hcb, if_false] at h
    by_cases hrep : field.htype = .REPEATED
    · left
      refine ⟨hrep, ?_⟩
      simp only [hrep, if_true] at h
      unfold print_array at h
      by_cases hs : field.pSize = 0
      · simp [hs] at h
      · simp only [hs, if_false] at h
        rcases print_array_loop_cases C mem traverse indent
          (load C mem field.pSize C.sizeof_pb_size_t) field with hok | ⟨j, hj, _, _, he, _⟩
        · rw [hok.1] at h
          simp at h
        · exact ⟨j, hj, by rw [← he]; exact h⟩
    · right
      simp only [hrep, if_false] at h
      exact ⟨hrep, h⟩

/-- Where `print_array` leaves the cursor: as it was except for `pData`,
which stands on one of the elements `0 .. count`; `print_field` leaves the
cursor of a field that is not repeated unchanged. -/
theorem print_array_cursor (C : Ctx) (mem : Mem)
    (traverse : pb_msgdesc_t → Nat → Nat → Out) (field : pb_field_iter_t) (indent : Nat) :
    (∃ j, j ≤ load C mem field.pSize C.sizeof_pb_size_t ∧
      (print_array C mem traverse field indent).2 = cursor_at field j)
    ∧ (field.htype ≠ .REPEATED → (print_field C mem traverse field indent).2 = field) := by
  constructor
  · unfold print_array
    by_cases hs : field.pSize = 0
    · exact ⟨0, Nat.zero_le _, by simp [hs, cursor_at_zero]⟩
    · simp only [hs, if_false]
      rcases print_array_loop_cases C mem traverse indent
        (load C mem field.pSize C.sizeof_pb_size_t) field with hok | ⟨j, hj, _, _, _, hc⟩
      · exact ⟨_, le_refl _, hok.2⟩
      · exact ⟨j, Nat.le_of_lt hj, hc⟩
  · intro hrep
    unfold print_field
    by_cases hcb : field.atype = .CALLBACK
    · simp [hcb]
    · simp [hcb, hrep]

/-! ## C15 -/


/-- C17 (counterexample): the first element of the repeated field `odd` fails
(a width of three bytes); `print_array` returns false after the comma and the
cursor still stands at the first element, address 12: it has not been moved
past the failing element. -/
theorem C17_cursor_counterexample :
    (pb_field_iter_load values_mem 8 (odd_field, none)).pData = 12
    ∧ (print_basic_field lp64 values_mem no_traverse
        (pb_field_iter_load values_mem 8 (odd_field, none)) 0).2 = some false
    ∧ (print_array lp64 values_mem no_traverse
        (pb_field_iter_load values_mem 8 (odd_field, none)) 0).1 = ("[,", some false)
    ∧ (print_array lp64 values_mem no_traverse
        (pb_field_iter_load values_mem 8 (odd_field, none)) 0).2.pData = 12
    ∧ (print_array lp64 values_mem no_traverse
        (pb_field_iter_load values_mem 8 (odd_field, none)) 0).2.pData ≠ 12 + (0 + 1) * 3 := by
  decide

/-- C17 (amended): when the elements before index `j` render successfully and
the rendering of the element at index `j` fails, `print_array` returns false
after writing the text of that element and its comma, and the cursor stands
on the failing element: it has been advanced by exactly `j * data_size`
bytes. -/
theorem C17_cursor_on_failure (C : Ctx) (mem : Mem)
    (traverse : pb_msgdesc_t → Nat → Nat → Out) (field : pb_field_iter_t) (indent j : Nat)
    (hsize : field.pSize ≠ 0)
    (hj : j < load C mem field.pSize C.sizeof_pb_size_t)
    (hbefore : ∀ k, k < j →
      (print_basic_field C mem traverse (cursor_at field k) indent).2 = some true)
    (hfail : (print_basic_field C mem traverse (cursor_at field j) indent).2 = some false) :
    print_array C mem traverse field indent =
      (("[" ++ concat_texts ((List.range j).map
          (fun k => (print_basic_field C mem traverse (cursor_at field k) indent).1 ++ ","))
          ++ ((print_basic_field C mem traverse (cursor_at field j) indent).1 ++ ","),
        some false), cursor_at field j)
    ∧ (print_array C mem traverse field indent).2.pData
        = field.pData + j * field.data_size := by
  have h : print_array C mem traverse field indent =
      (("[" ++ concat_texts ((List.range j).map
          (fun k => (print_basic_field C mem traverse (cursor_at field k) indent).1 ++ ","))
          ++ ((print_basic_field C mem traverse (cursor_at field j) indent).1 ++ ","),
        some false), cursor_at field j) := by
    unfold print_array
    simp only [hsize, if_false]
    rw [print_array_loop_stop C mem traverse indent _ field j (some false) hj hbefore hfail
      (by simp), String.append_assoc]
  refine ⟨h, ?_⟩
  rw [h]
  rfl

/-- C17 (witness): the repeated field `odd`, whose first element fails. -/
theorem C17_cursor_on_failure_witness :
    (print_array lp64 values_mem no_traverse
        (pb_field_iter_load values_mem 8 (odd_field, none)) 0).1 = ("[,", some false)
    ∧ (print_array lp64 values_mem no_traverse
        (pb_field_iter_load values_mem 8 (odd_field, none)) 0).2.pData = 12 + 0 * 3 :=
  have h := C17_cursor_on_failure lp64 values_mem no_traverse
    (pb_field_iter_load values_mem 8 (odd_field, none)) 0 0 (by decide) (by decide)
    (by decide) (by decide)
  ⟨(congrArg Prod.fst h.1).trans (by decide), h.2⟩



/-! ## Nibbles and the bytes of a value -/

theorem hex_single (x : Nat) (h : x < 16) : hex x = String.mk [Nat.digitChar x] := by
  rw [hex_eq_digits]
  by_cases hx : x = 0
  · subst hx; rfl
  · rw [Nat.digits_of_lt 16 x hx h]
    simp [hx]

theorem land_fifteen (x : Nat) : x &&& 0xf = x % 16 := by
  have h := Nat.and_pow_two_sub_one_eq_mod x 4
  simpa using h

theorem print_nibbles_eq (mem : Mem) : ∀ (n p : Nat),
    print_nibbles mem p n
      = String.mk ((List.range n).map (fun i => Nat.digitChar (byte mem (p + i) % 16))) := by
  intro n
  induction n with
  | zero => intro p; rfl
  | succ n ih =>
    intro p
    rw [print_nibbles, ih, land_fifteen, hex_single _ (Nat.mod_lt _ (by decide)),
      List.range_succ_eq_map, List.map_cons, List.map_map]
    show String.mk ([Nat.digitChar (byte mem p % 16)] ++ _) = _
    simp only [List.singleton_append, Nat.add_zero]
    congr 2
    apply List.map_congr_left
    intro i _
    simp only [Function.comp]
    have e : p + 1 + i = p + (i + 1) := by omega
    rw [e]

theorem print_nibbles_length (mem : Mem) (p n : Nat) :
    (print_nibbles mem p n).length = n := by
  rw [print_nibbles_eq]
  simp [String.length]

theorem print_nibbles_lowercase (mem : Mem) (p n : Nat) :
    ∀ c ∈ (print_nibbles mem p n).data, c ∈ "0123456789abcdef".data := by
  intro c hc
  rw [print_nibbles_eq] at hc
  simp only [List.mem_map, List.mem_range] at hc
  obtain ⟨i, _, rfl⟩ := hc
  exact digitChar_lowercase _ (Nat.mod_lt _ (by decide))

theorem print_nibbles_congr (mem mem2 : Mem) (p p2 n : Nat)
    (h : ∀ i, i < n → byte mem (p + i) % 16 = byte mem2 (p2 + i) % 16) :
    print_nibbles mem p n = print_nibbles mem2 p2 n := by
  rw [print_nibbles_eq, print_nibbles_eq]
  congr 1
  apply List.map_congr_left
  intro i hi
  rw [h i (List.mem_range.mp hi)]

theorem loadLE_byte (mem : Mem) : ∀ (n a i : Nat), i < n →
    loadLE mem a n / 256 ^ i % 256 = byte mem (a + i) := by
  intro n
  induction n with
  | zero => intro a i hi; omega
  | succ n ih =>
    intro a i hi
    have hb := byte_lt mem a
    cases i with
    | zero =>
      simp only [loadLE, pow_zero, Nat.div_one, Nat.add_zero]
      omega
    | succ i =>
      have h1 : (byte mem a + 256 * loadLE mem (a + 1) n) / 256 ^ (i + 1)
          = loadLE mem (a + 1) n / 256 ^ i := by
        rw [pow_succ, mul_comm (256 ^ i) 256, ← Nat.div_div_eq_div_mul]
        congr 1
        omega
      simp only [loadLE]
      rw [h1, ih (a + 1) i (by omega)]
      congr 1
      omega

theorem loadBE_succ (mem : Mem) (a n : Nat) :
    loadBE mem a (n + 1) = loadBE mem a n * 256 + byte mem (a + n) := by
  unfold loadBE
  rw [List.range_succ, List.foldl_append]
  rfl

theorem loadBE_byte (mem : Mem) (a : Nat) : ∀ (n i : Nat), i < n →
    loadBE mem a n / 256 ^ (n - 1 - i) % 256 = byte mem (a + i) := by
  intro n
  induction n with
  | zero => intro i hi; omega
  | succ n ih =>
    intro i hi
    have hb := byte_lt mem (a + n)
    rw [loadBE_succ]
    by_cases hin : i = n
    · subst hin
      have e : i + 1 - 1 - i = 0 := by omega
      rw [e, pow_zero, Nat.div_one]
      omega
    · have hlt : i < n := by omega
      have e : n + 1 - 1 - i = (n - 1 - i) + 1 := by omega
      rw [e, pow_succ, mul_comm (256 ^ (n - 1 - i)) 256, ← Nat.div_div_eq_div_mul]
      have h1 : (loadBE mem a n * 256 + byte mem (a + n)) / 256 = loadBE mem a n := by omega
      rw [h1, ih i hlt]

theorem load_byte (C : Ctx) (mem : Mem) (a n i : Nat) (hi : i < n) :
    byte mem (a + i)
      = load C mem a n / 256 ^ (if C.big_endian then n - 1 - i else i) % 256 := by
  unfold load
  cases hbe : C.big_endian with
  | true => simp only [if_true]; exact (loadBE_byte mem a n i hi).symm
  | false => simp only [Bool.false_eq_true, if_false]; exact (loadLE_byte mem n a i hi).symm

/-! ## C18 -/

/-- C18 (counterexample): on a little-endian target the four bytes 01 02 03 04
hold the value 0x04030201; the fixed 32-bit field prints `1234`, the low
nibbles from the least-significant byte to the most-significant, not `4321`. -/
theorem C18_byte_order_counterexample :
    print_basic_field lp64 fixed_mem no_traverse { int_cursor 4 with ltype := .FIXED32 } 0
      = ("1234", some true)
    ∧ load lp64 fixed_mem 8 4 = 0x04030201
    ∧ String.mk ((List.range 4).map
        (fun i => Nat.digitChar (load lp64 fixed_mem 8 4 / 256 ^ (3 - i) % 256 % 16))) = "4321"
    ∧ (print_basic_field lp64 fixed_mem no_traverse
        { int_cursor 4 with ltype := .FIXED32 } 0).1 ≠ "4321" := by
  decide

/-- C18 (amended): for a fixed 32-bit (respectively 64-bit) field with data
the renderer succeeds and writes exactly 4 (respectively 8) lower-case
hexadecimal digits, the digit at position `i` being the low nibble of the byte
at address `pData + i`: the bytes are taken in the order of their addresses,
which is from the most-significant byte of the value to the least-significant
on a big-endian target and the reverse on a little-endian target. -/
theorem C18_fixed_nibbles (C : Ctx) (mem : Mem)
    (traverse : pb_msgdesc_t → Nat → Nat → Out) (field : pb_field_iter_t)
    (indent n : Nat) (hdata : field.pData ≠ 0)
    (hkind : (field.ltype = .FIXED32 ∧ n = 4) ∨ (field.ltype = .FIXED64 ∧ n = 8)) :
    print_basic_field C mem traverse field indent
      = (String.mk ((List.range n).map
          (fun i => Nat.digitChar (byte mem (field.pData + i) % 16))), some true)
    ∧ (print_basic_field C mem traverse field indent).1.length = n
    ∧ (∀ c ∈ (print_basic_field C mem traverse field indent).1.data,
        c ∈ "0123456789abcdef".data)
    ∧ ∀ i, i < n →
        byte mem (field.pData + i)
          = load C mem field.pData n / 256 ^ (if C.big_endian then n - 1 - i else i) % 256 := by
  have h : print_basic_field C mem traverse field indent
      = (print_nibbles mem field.pData n, some true) := by
    rcases hkind with ⟨hl, hn⟩ | ⟨hl, hn⟩ <;> simp [print_basic_field, hdata, hl, hn]
  refine ⟨by rw [h, print_nibbles_eq], by rw [h]; exact print_nibbles_length mem _ n,
    by rw [h]; exact print_nibbles_lowercase mem _ n, ?_⟩
  intro i hi
  exact load_byte C mem field.pData n i hi

/-- C18 (witness): the fixed 64-bit field on the bytes 01 .. 08. -/
theorem C18_fixed_nibbles_witness :
    print_basic_field lp64 fixed_mem no_traverse { int_cursor 8 with ltype := .FIXED64 } 0
      = ("12345678", some true)
    ∧ (print_basic_field lp64 fixed_mem no_traverse
        { int_cursor 8 with ltype := .FIXED64 } 0).1.length = 8 :=
  have h := C18_fixed_nibbles lp64 fixed_mem no_traverse
    { int_cursor 8 with ltype := .FIXED64 } 0 8 (by decide) (Or.inr ⟨rfl, rfl⟩)
  ⟨h.1.trans (by decide), h.2.1⟩

/-! ## C19 -/

/-- C19: for a length-prefixed byte sequence with data, `n` being the stored
length and the bytes following the length, and for a fixed-length byte block
with data, `n` being the declared width, the renderer succeeds and writes
exactly `n` characters, the one at position `i` being the lower-case
hexadecimal digit of the low nibble of byte `i`, and nothing else; two byte
sequences that agree on every low nibble give the same text. -/
theorem C19_byte_nibbles (C : Ctx) (mem : Mem)
    (traverse : pb_msgdesc_t → Nat → Nat → Out) (field : pb_field_iter_t)
    (indent n base : Nat) (hdata : field.pData ≠ 0)
    (hkind : (field.ltype = .BYTES ∧ n = load C mem field.pData C.sizeof_pb_size_t
        ∧ base = field.pData + C.sizeof_pb_size_t)
      ∨ (field.ltype = .FIXED_LENGTH_BYTES ∧ n = field.data_size ∧ base = field.pData)) :
    print_basic_field C mem traverse field indent
      = (String.mk ((List.range n).map
          (fun i => Nat.digitChar ((byte mem (base + i) &&& 0xf)))), some true)
    ∧ (print_basic_field C mem traverse field indent).1.length = n
    ∧ (∀ c ∈ (print_basic_field C mem traverse field indent).1.data,
        c ∈ "0123456789abcdef".data)
    ∧ ∀ (mem2 : Mem) (base2 : Nat),
        (∀ i, i < n → byte mem (base + i) &&& 0xf = byte mem2 (base2 + i) &&& 0xf) →
        print_nibbles mem base n = print_nibbles mem2 base2 n := by
  have h : print_basic_field C mem traverse field indent
      = (print_nibbles mem base n, some true) := by
    rcases hkind with ⟨hl, hn, hb⟩ | ⟨hl, hn, hb⟩ <;>
      simp [print_basic_field, hdata, hl, hn, hb]
  refine ⟨?_, by rw [h]; exact print_nibbles_length mem _ n,
    by rw [h]; exact print_nibbles_lowercase mem _ n, ?_⟩
  · rw [h, print_nibbles_eq]
    simp only [land_fifteen]
  · intro mem2 base2 hagree
    apply print_nibbles_congr
    intro i hi
    have := hagree i hi
    rwa [land_fifteen, land_fifteen] at this

/-- C19 (witness): the byte sequence 1a 2b ff of length 3 prints `abf`, and so
does the sequence 0a 0b 0f; a fixed-length block of two bytes at the same
address prints two digits. -/
theorem C19_byte_nibbles_witness :
    print_basic_field lp64 bytes_mem no_traverse { int_cursor 0 with ltype := .BYTES } 0
      = ("abf", some true)
    ∧ print_nibbles bytes_mem 10 3 = print_nibbles bytes_mem_low 10 3
    ∧ print_basic_field lp64 bytes_mem no_traverse
        { int_cursor 2 with ltype := .FIXED_LENGTH_BYTES } 0 = ("30", some true) :=
  have h := C19_byte_nibbles lp64 bytes_mem no_traverse { int_cursor 0 with ltype := .BYTES }
    0 3 10 (by decide) (Or.inl ⟨rfl, by decide, by decide⟩)
  ⟨h.1.trans (by decide), h.2.2.2 bytes_mem_low 10 (by decide), by decide⟩

/-! ## C20 -/

/-- C20: when the loop has passed the fields before position `k` (present or
absent), the pass for the field at position `k` runs with the name counter
equal to `k`: the loop continues or ends as that pass says, and the text of
that pass is empty or starts with the indentation, a dash and
`field_names[k]`. -/
theorem C20_name_counter (C : Ctx) (mem : Mem) (field_names : List String)
    (pre post : List (pb_field_info_t × Option pb_msgdesc_t))
    (f : pb_field_info_t × Option pb_msgdesc_t) (src_struct indent : Nat)
    (o name : String)
    (hpre : pb_print_fields C mem field_names src_struct indent pre 0 = (o, .next))
    (hname : field_names.get? pre.length = some name) :
    (∀ t, pb_print_iteration C mem (pb_print_internal C mem) field_names pre.length
          (pb_field_iter_load mem src_struct f) indent = (t, .next) →
        pb_print_fields C mem field_names src_struct indent (pre ++ f :: post) 0
          = (o ++ (t ++ (pb_print_fields C mem field_names src_struct indent post
                (pre.length + 1)).1),
              (pb_print_fields C mem field_names src_struct indent post (pre.length + 1)).2))
    ∧ (∀ t r, pb_print_iteration C mem (pb_print_internal C mem) field_names pre.length
          (pb_field_iter_load mem src_struct f) indent = (t, .ret r) →
        pb_print_fields C mem field_names src_struct indent (pre ++ f :: post) 0
          = (o ++ t, .ret r))
    ∧ ((pb_print_iteration C mem (pb_print_internal C mem) field_names pre.length
          (pb_field_iter_load mem src_struct f) indent).1 = ""
        ∨ ∃ rest, (pb_print_iteration C mem (pb_print_internal C mem) field_names pre.length
            (pb_field_iter_load mem src_struct f) indent).1
          = indentation indent ++ "- " ++ name ++ ": " ++ rest) := by
  have h := pb_print_fields_append_next C mem field_names src_struct indent (f :: post)
    pre 0 o hpre
  rw [Nat.zero_add, pb_print_fields_cons] at h
  refine ⟨?_, ?_, pb_print_iteration_text C mem _ field_names _ _ indent name hname⟩
  · intro t ht
    rw [ht] at h
    exact h
  · intro t r ht
    rw [ht] at h
    exact h

/-- C20 (witness): the absent field `note` comes first and prints nothing; the
field `data` after it is printed under its own name, `field_names[1]`. -/
theorem C20_name_counter_witness :
    pb_print_fields lp64 ext_mem ["note", "data"] 8 0
        ([(note_field, none)] ++ (data_field, none) :: []) 0
      = ("" ++ ("- data: \n" ++ ""), .next)
    ∧ ["note", "data"].get? 1 = some "data" :=
  have h := C20_name_counter lp64 ext_mem ["note", "data"] [(note_field, none)] []
    (data_field, none) 8 0 "" "data" (by decide) rfl
  ⟨(h.1 "- data: \n" (by decide)).trans (by decide), rfl⟩

end PbPrint
